import Mathlib

/-!
Verification development for the Discord video-stream client.

We give a shallow embedding of the parts of the code base that the
specification talks about:

* the Annex-B bitstream reader and writer (`AnnexBBitstreamReaderWriter.ts`),
  including exp-Golomb coding and emulation-prevention bytes;
* the H.264 SPS VUI rewriter (`SPSVUIRewriter.ts`);
* the Annex-B RTP packetizer (`VideoPacketizerAnnexB.ts` together with
  `BaseMediaPacketizer.ts`);
* the H.264 frame path of `WebRtcWrapper.sendVideoFrame`;
* the voice connection state machine (`BaseMediaConnection`): `start`,
  the close handler, heartbeats, `sendOpcode`, and the DAVE transition
  bookkeeping.

Buffers are lists of byte values (`Nat` below 256 by construction).
JavaScript 32-bit integer operations are modelled explicitly: values that
flow through JS bitwise operators are represented by their unsigned 32-bit
pattern (`% 2^32`), with sign extension of `>>` modelled through `Int`
where it can be observed, and shift counts reduced modulo 32 as in JS.
-/

/-- Unsigned 32-bit pattern of a JS number entering a bitwise operator. -/
def toUint32 (v : Nat) : Nat := v % 2 ^ 32

/-- Signed 32-bit value of a JS number entering a bitwise operator
(`ToInt32` of the ECMAScript standard, restricted to naturals). -/
def toInt32 (v : Nat) : Int :=
  let m : Nat := v % 2 ^ 32
  if m < 2 ^ 31 then (m : Int) else (m : Int) - 2 ^ 32

/-- JS `v >> s` for a natural `v`: arithmetic shift of the 32-bit pattern,
with the shift count reduced modulo 32 as in ECMAScript. -/
def jsShr (v s : Nat) : Int := (toInt32 v).fdiv (2 ^ (s % 32))

/-- JS `x & (2^k - 1)` for a possibly negative 32-bit value `x` (`k ≤ 32`):
the low `k` bits of the two-complement pattern, as a natural number. -/
def jsMask (x : Int) (k : Nat) : Nat := (x % 2 ^ k).toNat

instance {ε α : Type} [DecidableEq ε] [DecidableEq α] : DecidableEq (Except ε α) :=
  fun a b =>
    match a, b with
    | .error e1, .error e2 =>
      if h : e1 = e2 then isTrue (by rw [h]) else isFalse (by simp [h])
    | .ok v1, .ok v2 =>
      if h : v1 = v2 then isTrue (by rw [h]) else isFalse (by simp [h])
    | .error _, .ok _ => isFalse (by simp)
    | .ok _, .error _ => isFalse (by simp)

/-! ## AnnexBBitstreamReader -/

/-- State of `AnnexBBitstreamReader`: the buffer it was constructed over
and the byte/bit cursor. -/
structure RState where
  buf : List Nat
  byteOffset : Nat
  bitOffset : Nat
  deriving Repr, DecidableEq

/-- One step of the emulation-prevention skip at the top of the
`readBits` loop: if we are byte aligned, at least two bytes in, and the
current byte is `03` preceded by `00 00`, advance over it. -/
def epSkip (s : RState) : RState :=
  if s.bitOffset = 0 ∧ 2 ≤ s.byteOffset
      ∧ s.buf.getD (s.byteOffset - 2) 0 = 0
      ∧ s.buf.getD (s.byteOffset - 1) 0 = 0
      ∧ s.buf.getD s.byteOffset 0 = 3 then
    { s with byteOffset := s.byteOffset + 1 }
  else s

/-- The `readBits` loop of `AnnexBBitstreamReader`, carrying the 32-bit
accumulator `result`.  Out-of-range byte access after the emulation
prevention skip yields 0, as JS `undefined` does under bitwise operators;
the bounds check at the top of the loop throws exactly as the source.
Each iteration consumes at least one bit, so `fuel = count` bounds the
iteration count; the fuel-exhaustion branch is unreachable from the
`readBits` wrapper. -/
def readBitsAux (fuel : Nat) (result count : Nat) (s : RState) :
    Except String (Nat × RState) :=
  match fuel with
  | 0 => if count = 0 then .ok (result, s) else .error "fuel exhausted"
  | fuel + 1 =>
    if count = 0 then .ok (result, s)
    else if s.buf.length ≤ s.byteOffset then .error "Bad byte offset"
    else
      let s' := epSkip s
      if s'.bitOffset = 0 ∧ 8 ≤ count then
        readBitsAux fuel ((result * 256 + s'.buf.getD s'.byteOffset 0) % 2 ^ 32)
          (count - 8) { s' with byteOffset := s'.byteOffset + 1 }
      else
        let k := min count (8 - s'.bitOffset)
        if k = 0 then .ok (result, s')
        else
          let newBits := s'.buf.getD s'.byteOffset 0 / 2 ^ (8 - s'.bitOffset - k) % 2 ^ k
          let result' := (result * 2 ^ k + newBits) % 2 ^ 32
          let s'' :=
            if s'.bitOffset + k = 8 then
              { s' with bitOffset := 0, byteOffset := s'.byteOffset + 1 }
            else { s' with bitOffset := s'.bitOffset + k }
          readBitsAux fuel result' (count - k) s''

/-- `AnnexBBitstreamReader.readBits`. -/
def readBits (count : Nat) (s : RState) : Except String (Nat × RState) :=
  readBitsAux count 0 count s

/-- `AnnexBBitstreamReader.readUnsigned`. -/
def readUnsigned (bits : Nat) (s : RState) : Except String (Nat × RState) :=
  readBits bits s

/-- The leading-zero-counting loop of `readUnsignedExpGolomb`.  The source
loops `while readBits(1) == 0`; each iteration advances the cursor or
throws, so the loop is bounded by the bit length of the buffer.  We carry
that bound as fuel; the fuel passed by the wrapper is always sufficient. -/
def ueLeadingZeros (fuel : Nat) (s : RState) : Except String (Nat × RState) :=
  match fuel with
  | 0 => .error "fuel exhausted"
  | fuel + 1 => do
    let (b, s') ← readBits 1 s
    if b = 0 then
      let (n, s'') ← ueLeadingZeros fuel s'
      pure (n + 1, s'')
    else
      pure (0, s')

/-- `AnnexBBitstreamReader.readUnsignedExpGolomb`.  The decoded value is
`(1 << leading0) + readBits(leading0) - 1`; we use the mathematical value,
which agrees with the JS 32-bit computation whenever the decoded value
fits in a signed 32-bit integer (`leading0 ≤ 30`). -/
def readUnsignedExpGolomb (s : RState) : Except String (Nat × RState) := do
  let (leading0, s1) ← ueLeadingZeros (8 * s.buf.length + 8) s
  let (rest, s2) ← readBits leading0 s1
  pure (2 ^ leading0 + rest - 1, s2)

/-- `AnnexBBitstreamReader.readSignedExpGolomb`: even unsigned `u` maps to
`-u/2`, odd to `(u+1)/2`. -/
def readSignedExpGolomb (s : RState) : Except String (Int × RState) := do
  let (unsigned, s') ← readUnsignedExpGolomb s
  if unsigned % 2 = 0 then
    pure (-(unsigned / 2 : Int), s')
  else
    pure (((unsigned : Int) + 1) / 2, s')

/-! ## AnnexBBitstreamWriter -/

/-- State of `AnnexBBitstreamWriter`: emitted bytes, the pending byte and
the bit cursor inside it. -/
structure WState where
  arr : List Nat
  pendingByte : Nat
  bitOffset : Nat
  deriving Repr, DecidableEq

/-- `arr.at(-1) == 0 && arr.at(-2) == 0`: both of the last two emitted
bytes exist and are zero. -/
def lastTwoZero (arr : List Nat) : Bool :=
  match arr.reverse with
  | a :: c :: _ => a == 0 && c == 0
  | _ => false

/-- The array update performed by `AnnexBBitstreamWriter.flush`: append
the byte `b`, inserting an emulation-prevention `03` when `b ≤ 3` and the
last two emitted bytes are both zero. -/
def epPush (arr : List Nat) (b : Nat) : List Nat :=
  if b ≤ 3 ∧ lastTwoZero arr then arr ++ [3, b]
  else arr ++ [b]

/-- `AnnexBBitstreamWriter.flush`. -/
def flush (w : WState) : WState :=
  { arr := epPush w.arr w.pendingByte, pendingByte := 0, bitOffset := 0 }

/-- The `writeBits` loop of `AnnexBBitstreamWriter`, with JS 32-bit shift
semantics (`jsShr` reduces shift counts modulo 32 and sign-extends).
Each iteration writes at least one bit, so `fuel = count` bounds the
iteration count; the fuel-exhaustion branch is unreachable from the
`writeBits` wrapper. -/
def writeBitsAux (fuel : Nat) (bits count : Nat) (w : WState) : WState :=
  match fuel with
  | 0 => w
  | fuel + 1 =>
    if count = 0 then w
    else if w.bitOffset = 0 then
      if 8 ≤ count then
        let b := jsMask (jsShr bits (count - 8)) 8
        writeBitsAux fuel bits (count - 8) (flush { w with pendingByte := b })
      else
        let chunk := jsMask (toInt32 bits) count
        { w with pendingByte := w.pendingByte ||| chunk * 2 ^ (8 - count),
                 bitOffset := count }
    else
      let k := min (8 - w.bitOffset) count
      if k = 0 then w
      else
        let chunk := jsMask (jsShr bits (count - k)) k
        let w' := { w with
          pendingByte := w.pendingByte ||| chunk * 2 ^ (8 - w.bitOffset - k),
          bitOffset := w.bitOffset + k }
        let w'' := if w'.bitOffset = 8 then flush { w' with bitOffset := 0 } else w'
        writeBitsAux fuel bits (count - k) w''

/-- `AnnexBBitstreamWriter.writeBits`. -/
def writeBits (bits count : Nat) (w : WState) : WState :=
  writeBitsAux count bits count w

/-- `AnnexBBitstreamWriter.writeUnsigned` (the negativity check of the
source cannot fire for naturals). -/
def writeUnsigned (num count : Nat) (w : WState) : WState :=
  writeBits num count w

/-- Floor base-2 logarithm by structural recursion (the argument is
always below `2 ^ 32`, so 32 halvings suffice). -/
def log2Aux (fuel n : Nat) : Nat :=
  match fuel with
  | 0 => 0
  | fuel + 1 => if 2 ≤ n then log2Aux fuel (n / 2) + 1 else 0

/-- `32 - Math.clz32(n >>> 0)`: the bit length of the low 32 bits. -/
def bitLen32 (n : Nat) : Nat :=
  if n % 2 ^ 32 = 0 then 0 else log2Aux 32 (n % 2 ^ 32) + 1

/-- `AnnexBBitstreamWriter.writeUnsignedExpGolomb`. -/
def writeUnsignedExpGolomb (num : Int) (w : WState) : Except String WState :=
  if num < 0 then .error "Expected a non-negative number"
  else
    let n := num.toNat + 1
    .ok (writeBits n (bitLen32 n) (writeBits 0 (bitLen32 n - 1) w))

/-- `AnnexBBitstreamWriter.writeSignedExpGolomb`: negative `num` is
written as `ue(-2 num)`, otherwise as `ue(2 num - 1)`. -/
def writeSignedExpGolomb (num : Int) (w : WState) : Except String WState :=
  if num < 0 then writeUnsignedExpGolomb (-2 * num) w
  else writeUnsignedExpGolomb (2 * num - 1) w

/-! ## The SPS rewrite monad

`rewriteSPSVUI` threads one reader (over the SPS payload) and one writer.
`M` is the combined state-and-exception monad; the primitive operations
below are the local helpers `readBit`/`writeBit`/`readU`/`writeU`/
`readUE`/`writeUE`/`readSE`/`writeSE` of the source. -/

def M (α : Type) : Type := RState → WState → Except String (α × RState × WState)

def M.pure {α : Type} (a : α) : M α := fun r w => .ok (a, r, w)

def M.bind {α β : Type} (m : M α) (f : α → M β) : M β := fun r w =>
  match m r w with
  | .error e => .error e
  | .ok (a, r', w') => f a r' w'

instance : Monad M where
  pure := M.pure
  bind := M.bind

def readBit (n : Nat) : M Nat := fun r w =>
  match readBits n r with
  | .error e => .error e
  | .ok (v, r') => .ok (v, r', w)

def writeBit (v n : Nat) : M Unit := fun r w => .ok ((), r, writeBits v n w)

def readU (n : Nat) : M Nat := fun r w =>
  match readUnsigned n r with
  | .error e => .error e
  | .ok (v, r') => .ok (v, r', w)

def writeU (v n : Nat) : M Unit := fun r w => .ok ((), r, writeUnsigned v n w)

def readUE : M Nat := fun r w =>
  match readUnsignedExpGolomb r with
  | .error e => .error e
  | .ok (v, r') => .ok (v, r', w)

def writeUE (v : Nat) : M Unit := fun r w =>
  match writeUnsignedExpGolomb v w with
  | .error e => .error e
  | .ok w' => .ok ((), r, w')

def readSE : M Int := fun r w =>
  match readSignedExpGolomb r with
  | .error e => .error e
  | .ok (v, r') => .ok (v, r', w)

def writeSE (v : Int) : M Unit := fun r w =>
  match writeSignedExpGolomb v w with
  | .error e => .error e
  | .ok w' => .ok ((), r, w')

def mflush : M Unit := fun r w => .ok ((), r, flush w)

/-- A `read` immediately copied to the output (`const x = readU(n); writeU(x, n)`),
the pervasive pattern of `rewriteSPSVUI`. -/
def copyU (n : Nat) : M Nat := do
  let v ← readU n
  writeU v n
  pure v

def copyBit (n : Nat) : M Nat := do
  let v ← readBit n
  writeBit v n
  pure v

def copyUE : M Nat := do
  let v ← readUE
  writeUE v
  pure v

def copySE : M Int := do
  let v ← readSE
  writeSE v
  pure v

/-- `for (let i = 0; i < n; i++) body(i)` over the monad. -/
def mfor (l : List Nat) (f : Nat → M Unit) : M Unit :=
  match l with
  | [] => Pure.pure ()
  | i :: rest => Bind.bind (f i) (fun _ => mfor rest f)

/-! ## rewriteSPSVUI -/

/-- The `scaling_list(size)` inner loop of `rewriteSPSVUI`, threading
`lastScale` exactly as the source (the scale variables do not influence
any read or write). -/
def scalingListGo (j : Nat) (lastScale : Int) : M Unit :=
  match j with
  | 0 => Pure.pure ()
  | j + 1 => do
    let delta ← copySE
    let nextScale := (lastScale + delta + 256).tmod 256
    scalingListGo j (if nextScale ≠ 0 then nextScale else lastScale)

def scalingList (size : Nat) : M Unit := scalingListGo size 8

/-- The `hrd_parameters()` block, copied verbatim twice in the source
(NAL and VCL); identical field structure. -/
def hrdParameters : M Unit := do
  let cpb_cnt_minus1 ← copyUE
  let _ ← copyBit 4
  let _ ← copyBit 4
  mfor (List.range (cpb_cnt_minus1 + 1)) (fun _ => do
    let _ ← copyUE
    let _ ← copyUE
    let _ ← copyBit 1
    pure ())
  let _ ← copyBit 5
  let _ ← copyBit 5
  let _ ← copyBit 5
  let _ ← copyBit 5
  pure ()

def highProfiles : List Nat := [100, 110, 122, 244, 44, 83, 86, 118, 128, 138, 144]

/-- Values read by `rewriteSPSVUI` that the specification claims are
forced or preserved.  Every field is one of the local constants of the
source; the `Option` fields record the values read from the input VUI
bitstream-restriction block when present. -/
structure SPSRecord where
  max_num_ref_frames : Nat
  vui_parameters_present_flag : Nat
  bitstream_restriction_flag : Option Nat
  motion_vectors_over_pic_boundaries_flag : Option Nat
  max_bytes_per_pic_denom : Option Nat
  max_bits_per_mb_denom : Option Nat
  log2_max_mv_length_horizontal : Option Nat
  log2_max_mv_length_vertical : Option Nat
  max_num_reorder_frames : Option Nat
  max_dec_frame_buffering : Option Nat
  deriving Repr, DecidableEq

/-- `addBitstreamRestriction` of the source: the forced
bitstream-restriction block. -/
def addBitstreamRestriction (max_num_ref_frames : Nat) : M Unit := do
  writeBit 1 1
  writeUE 2
  writeUE 1
  writeUE 16
  writeUE 16
  writeUE 0
  writeUE max_num_ref_frames

/-- The SPS fields before the VUI flag, copied unchanged; returns
`max_num_ref_frames`. -/
def spsFrontPart : M Nat := do
  let profile_idc ← copyU 8
  let _ ← copyU 8
  let _ ← copyU 8
  let _ ← copyUE
  if profile_idc ∈ highProfiles then do
    let chroma_format_idc ← copyUE
    if chroma_format_idc = 3 then do
      let _ ← copyBit 1
      pure ()
    let _ ← copyUE
    let _ ← copyUE
    let _ ← copyBit 1
    let seq_scaling_matrix_present_flag ← copyBit 1
    if seq_scaling_matrix_present_flag ≠ 0 then do
      let scalingCount := if chroma_format_idc ≠ 3 then 8 else 12
      mfor (List.range scalingCount) (fun i => do
        let seq_scaling_list_present_flag ← copyBit 1
        if seq_scaling_list_present_flag ≠ 0 then
          scalingList (if i < 6 then 16 else 64)
        else pure ())
  let _ ← copyUE
  let pic_order_cnt_type ← copyUE
  if pic_order_cnt_type = 0 then do
    let _ ← copyUE
    pure ()
  else if pic_order_cnt_type = 1 then do
    let _ ← copyBit 1
    let _ ← copySE
    let _ ← copySE
    let num_ref_frames_in_pic_order_cnt_cycle ← copyUE
    mfor (List.range num_ref_frames_in_pic_order_cnt_cycle) (fun _ => do
      let _ ← copySE
      pure ())
  let max_num_ref_frames ← copyUE
  let _ ← copyBit 1
  let _ ← copyUE
  let _ ← copyUE
  let frame_mbs_only_flag ← copyBit 1
  if frame_mbs_only_flag = 0 then do
    let _ ← copyBit 1
    pure ()
  let _ ← copyBit 1
  let frame_cropping_flag ← copyBit 1
  if frame_cropping_flag ≠ 0 then do
    let _ ← copyUE
    let _ ← copyUE
    let _ ← copyUE
    let _ ← copyUE
    pure ()
  pure max_num_ref_frames

/-- The VUI middle (aspect ratio through `pic_struct`), copied through
except for the video-signal-type block which is read but re-emitted as a
single disabled flag. -/
def vuiCopyMiddle : M Unit := do
  let aspect_ratio_info_present_flag ← copyBit 1
  if aspect_ratio_info_present_flag ≠ 0 then do
    let aspect_ratio_idc ← copyU 8
    if aspect_ratio_idc = 255 then do
      let _ ← copyU 16
      let _ ← copyU 16
      pure ()
  let overscan_info_present_flag ← copyBit 1
  if overscan_info_present_flag ≠ 0 then do
    let _ ← copyBit 1
    pure ()
  let video_signal_type_present_flag ← readBit 1
  writeBit 0 1
  if video_signal_type_present_flag ≠ 0 then do
    let _ ← readBit 3
    let _ ← readBit 1
    let colour_description_present_flag ← readBit 1
    if colour_description_present_flag ≠ 0 then do
      let _ ← readU 8
      let _ ← readU 8
      let _ ← readU 8
      pure ()
  let chroma_loc_info_present_flag ← copyBit 1
  if chroma_loc_info_present_flag ≠ 0 then do
    let _ ← copyUE
    let _ ← copyUE
    pure ()
  let timing_info_present_flag ← copyBit 1
  if timing_info_present_flag ≠ 0 then do
    let _ ← copyU 32
    let _ ← copyU 32
    let _ ← copyBit 1
    pure ()
  let nal_hrd_parameters_present_flag ← copyBit 1
  if nal_hrd_parameters_present_flag ≠ 0 then hrdParameters
  let vcl_hrd_parameters_present_flag ← copyBit 1
  if vcl_hrd_parameters_present_flag ≠ 0 then hrdParameters
  if nal_hrd_parameters_present_flag ≠ 0 ∨ vcl_hrd_parameters_present_flag ≠ 0 then do
    let _ ← copyBit 1
    pure ()
  let _ ← copyBit 1
  pure ()

/-- The VUI part of `rewriteSPSVUI`: the flag is forced to 1 and the
bitstream-restriction block emitted along the three source paths. -/
def spsVuiPart (max_num_ref_frames : Nat) : M SPSRecord := do
  let vui_parameters_present_flag ← readBit 1
  writeBit 1 1
  if vui_parameters_present_flag = 0 then do
    writeBit 0 2
    writeBit 0 1
    writeBit 0 5
    writeBit 1 1
    addBitstreamRestriction max_num_ref_frames
    pure ⟨max_num_ref_frames, vui_parameters_present_flag,
      none, none, none, none, none, none, none, none⟩
  else do
    vuiCopyMiddle
    let bitstream_restriction_flag ← readBit 1
    writeBit 1 1
    if bitstream_restriction_flag = 0 then do
      addBitstreamRestriction max_num_ref_frames
      pure ⟨max_num_ref_frames, vui_parameters_present_flag,
        some bitstream_restriction_flag, none, none, none, none, none, none, none⟩
    else do
      let motion_vectors_over_pic_boundaries_flag ← copyBit 1
      let max_bytes_per_pic_denom ← copyUE
      let max_bits_per_mb_denom ← copyUE
      let log2_max_mv_length_horizontal ← copyUE
      let log2_max_mv_length_vertical ← copyUE
      let num_reorder_frames ← readUE
      writeUE 0
      let max_dec_frame_buffering ← readUE
      writeUE max_num_ref_frames
      pure ⟨max_num_ref_frames, vui_parameters_present_flag,
        some bitstream_restriction_flag,
        some motion_vectors_over_pic_boundaries_flag,
        some max_bytes_per_pic_denom, some max_bits_per_mb_denom,
        some log2_max_mv_length_horizontal, some log2_max_mv_length_vertical,
        some num_reorder_frames, some max_dec_frame_buffering⟩

/-- The whole rewrite program: NAL header byte, front fields, VUI, the
`rbsp_stop_one_bit` and the final flush. -/
def spsProgram (header : Nat) : M SPSRecord := do
  writeU header 8
  let max_num_ref_frames ← spsFrontPart
  let rec ← spsVuiPart max_num_ref_frames
  writeBit 1 1
  mflush
  pure rec

/-- `rewriteSPSVUI`: runs the program over `buffer.subarray(1)` and an
empty writer; returns the rewritten bytes together with the record of
read values (the local constants of the source function). -/
def rewriteSPSVUI (buffer : List Nat) : Except String (List Nat × SPSRecord) :=
  match spsProgram (buffer.headD 0) ⟨buffer.drop 1, 0, 0⟩ ⟨[], 0, 0⟩ with
  | .error e => .error e
  | .ok (r, _, w) => .ok (w.arr, r)

/-! ## BaseMediaPacketizer -/

def max_int16bit : Nat := 2 ^ 16

def max_int32bit : Nat := 2 ^ 32

/-- `BaseMediaPacketizer.getNewSequence` on the stored sequence number:
`_sequence = (_sequence + 1) % max_int16bit`, returning the new value. -/
def getNewSequence (sequence : Nat) : Nat := (sequence + 1) % max_int16bit

/-- The sequence number assigned to the `n`-th packet after starting from
stored state `s` (each packet calls `getNewSequence` once). -/
def nthSequence (s : Nat) : Nat → Nat
  | 0 => s
  | n + 1 => getNewSequence (nthSequence s n)

/-- Mutable counters of `BaseMediaPacketizer` that the claims observe. -/
structure PacketizerState where
  sequence : Nat
  timestamp : Nat
  mtu : Nat
  deriving Repr, DecidableEq

/-- The RTP header fields built by `makeRtpHeader` that the claims
observe. -/
structure RtpHeaderRec where
  marker : Bool
  sequenceNumber : Nat
  timestamp : Nat
  deriving Repr, DecidableEq

structure RtpPacketRec where
  header : RtpHeaderRec
  payload : List Nat
  deriving Repr, DecidableEq

/-- `BaseMediaPacketizer.makeRtpHeader`. -/
def makeRtpHeader (isLastPacket : Bool) (st : PacketizerState) :
    RtpHeaderRec × PacketizerState :=
  let seq := getNewSequence st.sequence
  ({ marker := isLastPacket, sequenceNumber := seq, timestamp := st.timestamp },
   { st with sequence := seq })

/-- `BaseMediaPacketizer.partitionDataMTUSizedChunks`.  The source loop
never terminates when the MTU is zero (it always is 1200); we return the
empty list in that unreachable case. -/
def partitionDataMTUSizedChunksAux (fuel : Nat) (mtu : Nat) (data : List Nat) :
    List (List Nat) :=
  match fuel with
  | 0 => []
  | fuel + 1 =>
    if mtu = 0 then []
    else if data.length = 0 then []
    else data.take mtu :: partitionDataMTUSizedChunksAux fuel mtu (data.drop mtu)

def partitionDataMTUSizedChunks (mtu : Nat) (data : List Nat) : List (List Nat) :=
  partitionDataMTUSizedChunksAux data.length mtu data

/-! ## VideoPacketizerAnnexB (H.264 strategy)

`splitNalu`, `H264Helpers` and `startCode3` live in `AnnexBHelper.ts`,
which is not part of the sources; only its callers are.  The definitions
marked `Modelled from the spec` reconstruct them from the specification:
NAL units are obtained by splitting the access unit at Annex-B start
codes, and the H.264 NAL header is a single byte whose low five bits are
the unit type. -/

/-- Modelled from the spec: `startCode3`, the three-byte Annex-B start
code `00 00 01`. -/
def startCode3 : List Nat := [0, 0, 1]

/-- Modelled from the spec: does the byte stream begin with the
three-byte start code `00 00 01`? -/
def isStartCode3 (bytes : List Nat) : Bool :=
  match bytes with
  | 0 :: 0 :: 1 :: _ => true
  | _ => false

/-- Modelled from the spec: `splitNalu` scanning loop — split at
three-byte start codes, the access unit beginning with a start code. -/
def splitNaluAux (fuel : Nat) (bytes cur : List Nat) (acc : List (List Nat)) :
    List (List Nat) :=
  match fuel with
  | 0 => acc ++ [cur]
  | fuel + 1 =>
    if isStartCode3 bytes then splitNaluAux fuel (bytes.drop 3) [] (acc ++ [cur])
    else
      match bytes with
      | [] => acc ++ [cur]
      | b :: rest => splitNaluAux fuel rest (cur ++ [b]) acc

/-- Modelled from the spec: `splitNalu` — NAL units of an Annex-B access
unit, which starts with a three- or four-byte start code. -/
def splitNalu (frame : List Nat) : List (List Nat) :=
  if isStartCode3 frame then splitNaluAux (frame.drop 3).length (frame.drop 3) [] []
  else if isStartCode3 (frame.drop 1) ∧ frame.headD 9 = 0 then
    splitNaluAux (frame.drop 4).length (frame.drop 4) [] []
  else [frame]

/-- Modelled from the spec: `H264Helpers.getUnitType` — the low five bits
of the one-byte H.264 NAL header. -/
def h264GetUnitType (nalu : List Nat) : Nat := nalu.headD 0 &&& 31

/-- Modelled from the spec: `H264NalUnitTypes.SPS`. -/
def h264NalUnitTypeSPS : Nat := 7

/-- Modelled from the spec: `H264Helpers.splitHeader` — the H.264 NAL
header is one byte, the rest is payload. -/
def h264SplitHeader (nalu : List Nat) : List Nat × List Nat :=
  (nalu.take 1, nalu.drop 1)

/-- `VideoPacketizerH264.makeAggregateUnitHeader`: STAP-A header from the
aggregated forbidden bits and the maximal NRI. -/
def makeAggregateUnitHeaderH264 (nalus : List (List Nat)) : List Nat :=
  let f := nalus.any (fun nalu => nalu.headD 0 >>> 7 ≠ 0)
  let max_nri := nalus.foldl (fun m nalu => max m ((nalu.headD 0 &&& 96) >>> 5)) 0
  [(if f then 128 else 0) ||| (max_nri <<< 5) ||| 24]

/-- `VideoPacketizerH264.makeFragmentationUnitHeader`: FU indicator and
FU header. -/
def makeFragmentationUnitHeaderH264 (isFirstPacket isLastPacket : Bool)
    (naluHeader : List Nat) : List Nat :=
  let nal0 := naluHeader.headD 0
  let nalType := h264GetUnitType naluHeader
  let fnri := nal0 &&& 0xe0
  let ind := 0x1c ||| fnri
  let hdr :=
    if isFirstPacket then 0x80 ||| nalType
    else if isLastPacket then 0x40 ||| nalType
    else nalType
  [ind, hdr]

/-- `VideoPacketizerAnnexB._sendNonFragmented` (H.264 aggregate-header
variant): one RTP packet, single-NAL when the aggregate has one member,
length-prefixed STAP-A otherwise. -/
def sendNonFragmented (nalus : List (List Nat)) (isLastNal : Bool)
    (st : PacketizerState) : PacketizerState × RtpPacketRec :=
  let (header, st') := makeRtpHeader isLastNal st
  let payload :=
    if nalus.length = 1 then nalus.headD []
    else
      makeAggregateUnitHeaderH264 nalus ++
        nalus.flatMap (fun nalu => [nalu.length / 256 % 256, nalu.length % 256] ++ nalu)
  (st', { header := header, payload := payload })

/-- The indexed loop of `_sendFragmented` over the MTU-sized chunks. -/
def sendFragmentedLoop (naluHeader : List Nat) (chunks : List (List Nat))
    (i total : Nat) (isLastNal : Bool) (st : PacketizerState) :
    PacketizerState × List RtpPacketRec :=
  match chunks with
  | [] => (st, [])
  | chunk :: rest =>
    let isFirstPacket := i = 0
    let isLastPacket := i = total - 1
    let markerBit := isLastNal ∧ isLastPacket
    let (header, st') := makeRtpHeader markerBit st
    let payload := makeFragmentationUnitHeaderH264 isFirstPacket isLastPacket naluHeader ++ chunk
    let (st'', pkts) := sendFragmentedLoop naluHeader rest (i + 1) total isLastNal st'
    (st'', { header := header, payload := payload } :: pkts)

/-- `VideoPacketizerAnnexB._sendFragmented` (H.264). -/
def sendFragmented (nalu : List Nat) (isLastNal : Bool) (st : PacketizerState) :
    PacketizerState × List RtpPacketRec :=
  let (naluHeader, naluData) := h264SplitHeader nalu
  let chunks := partitionDataMTUSizedChunks st.mtu naluData
  sendFragmentedLoop naluHeader chunks 0 chunks.length isLastNal st

/-- The NAL loop of `VideoPacketizerAnnexB.sendFrame`, threading the
pending aggregate. -/
def sendFrameLoop (nalus : List (List Nat)) (naluAggregate : List (List Nat))
    (naluAggregateSize : Nat) (st : PacketizerState) :
    PacketizerState × List RtpPacketRec :=
  match nalus with
  | [] =>
    if naluAggregateSize ≠ 0 then
      let (st', pkt) := sendNonFragmented naluAggregate true st
      (st', [pkt])
    else (st, [])
  | nalu :: rest =>
    let isLastNal := rest.isEmpty
    if nalu.length ≤ st.mtu then
      if st.mtu ≤ naluAggregateSize + nalu.length then
        let (st', pkt) := sendNonFragmented naluAggregate false st
        let (st'', pkts) := sendFrameLoop rest [nalu] nalu.length st'
        (st'', pkt :: pkts)
      else
        sendFrameLoop rest (naluAggregate ++ [nalu])
          (naluAggregateSize + nalu.length) st
    else
      if naluAggregateSize ≠ 0 then
        let (st', pkt) := sendNonFragmented naluAggregate false st
        let (st'', fragPkts) := sendFragmented nalu isLastNal st'
        let (st3, pkts) := sendFrameLoop rest [] 0 st''
        (st3, pkt :: (fragPkts ++ pkts))
      else
        let (st', fragPkts) := sendFragmented nalu isLastNal st
        let (st'', pkts) := sendFrameLoop rest [] 0 st'
        (st'', fragPkts ++ pkts)

/-- `VideoPacketizerAnnexB.sendFrame` (H.264, without the optional DAVE
encryption layer, which is inactive unless a secure session is ready):
the emitted RTP packet sequence and the updated counters. -/
def sendFrame (frame : List Nat) (st : PacketizerState) :
    PacketizerState × List RtpPacketRec :=
  sendFrameLoop (splitNalu frame) [] 0 st

/-! ## WebRtcWrapper.sendVideoFrame — H.264 rewrite path

The claim-relevant core of `sendVideoFrame` for the H.264 codec: split
the frame into NAL units, rewrite every SPS through `rewriteSPSVUI`, and
if any NAL was rewritten re-assemble the frame with three-byte start
codes.  The source performs the rewrite inside `Array.prototype.map` with
no exception handler, so a rewrite error propagates out of
`sendVideoFrame`. -/

/-- The body of the `nalus.map` callback in `sendVideoFrame`: SPS NAL
units are replaced by their rewrite (recording that a rewrite happened),
other NAL units pass through. -/
def rewriteNaluStep (el : List Nat) : Except String (Bool × List Nat) :=
  if h264GetUnitType el = h264NalUnitTypeSPS then do
    let (rewritten, _) ← rewriteSPSVUI el
    pure (true, rewritten)
  else
    pure (false, el)

def processVideoFrameH264 (frame : List Nat) : Except String (List Nat) := do
  let nalus := splitNalu frame
  let results ← nalus.mapM rewriteNaluStep
  let spsRewritten := results.any (·.1)
  if spsRewritten then
    pure ((results.map (·.2)).flatMap (fun el => startCode3 ++ el))
  else
    pure frame

/-! ## BaseMediaConnection: session state machine

Model of the control-channel state machine shared by the two
`BaseMediaConnection` variants in the sources.  Observable side effects
(socket creation, messages handed to `ws.send`, timer manipulation) are
returned as an explicit list of effects. -/

inductive WsReadyState
  | connecting | wsOpen | closing | wsClosed
  deriving Repr, DecidableEq

/-- Voice gateway text opcodes used by the modelled handlers.  The
numeric values follow the Discord voice gateway; only their distinctness
matters to the claims. -/
def opIdentify : Nat := 0
def opHeartbeat : Nat := 3
def opResume : Nat := 7
def opDaveTransitionReady : Nat := 23

inductive ConnEffect
  | openSocket
  | sendText (op : Nat)
  | sendBinary (op : Nat)
  | closeWebRtc
  | closeUdp
  | setPassthrough (enabled : Bool) (units : Nat)
  deriving Repr, DecidableEq

structure ConnStatus where
  hasSession : Bool
  hasToken : Bool
  started : Bool
  resuming : Bool
  deriving Repr, DecidableEq

structure ConnState where
  status : ConnStatus
  ws : Option WsReadyState
  interval : Bool
  serverId : Option String
  session_id : Option String
  token : Option String
  deriving Repr, DecidableEq

/-- `sendOpcode`: drops the message silently unless the socket exists and
is OPEN. -/
def sendOpcode (st : ConnState) (code : Nat) : ConnState × List ConnEffect :=
  if st.ws ≠ some .wsOpen then (st, [])
  else (st, [.sendText code])

/-- `sendOpcodeBinary`: same guard as `sendOpcode`. -/
def sendOpcodeBinary (st : ConnState) (code : Nat) : ConnState × List ConnEffect :=
  if st.ws ≠ some .wsOpen then (st, [])
  else (st, [.sendBinary code])

/-- One tick of the `setupHeartbeat` interval: a heartbeat send through
`sendOpcode` (the surrounding try/catch swallows failures). -/
def heartbeatTick (st : ConnState) : ConnState × List ConnEffect :=
  sendOpcode st opHeartbeat

/-- `identify()`: throws when a credential is missing, otherwise sends
one Identify. -/
def identify (st : ConnState) : Except String (ConnState × List ConnEffect) :=
  if st.serverId = none then .error "Server ID is null or empty"
  else if st.session_id = none then .error "Session ID is null or empty"
  else if st.token = none then .error "Token is null or empty"
  else .ok (sendOpcode st opIdentify)

/-- `resume()`: throws when a credential is missing, otherwise sends one
Resume. -/
def resume (st : ConnState) : Except String (ConnState × List ConnEffect) :=
  if st.serverId = none then .error "Server ID is null or empty"
  else if st.session_id = none then .error "Session ID is null or empty"
  else if st.token = none then .error "Token is null or empty"
  else .ok (sendOpcode st opResume)

/-- `start()`: opens the control channel only when both credential flags
are set and the connection is not already started. -/
def start (st : ConnState) : ConnState × List ConnEffect :=
  if st.status.hasSession ∧ st.status.hasToken then
    if st.status.started then (st, [])
    else
      ({ st with status := { st.status with started := true },
                 ws := some .connecting }, [.openSocket])
  else (st, [])

/-- The `ws.on("open")` handler: resets the resuming flag and sends
Resume when it was set, otherwise sends Identify. -/
def openHandler (st : ConnState) : Except String (ConnState × List ConnEffect) :=
  if st.status.resuming then
    resume { st with status := { st.status with resuming := false } }
  else identify st

/-- The `ws.on("close")` handler of the `BaseMediaConnection` variant in
`part_003` (UDP transport): marks the connection stopped and the UDP
transport not ready, and restarts with the resuming flag for resumable
codes.  It does not touch the heartbeat interval. -/
def closeHandlerUdp (st : ConnState) (code : Nat) : ConnState × List ConnEffect :=
  let wasStarted := st.status.started
  let st1 := { st with status := { st.status with started := false },
                       ws := some .wsClosed }
  let canResume := code = 4015 ∨ code < 4000
  if canResume ∧ wasStarted then
    let (st2, effs) := start { st1 with status := { st1.status with resuming := true } }
    (st2, .closeUdp :: effs)
  else (st1, [.closeUdp])

/-- The `ws.on("close")` handler of the `BaseMediaConnection` variant in
`part_004` (WebRTC transport): additionally clears the heartbeat
interval (`this.interval && clearInterval(this.interval)`). -/
def closeHandlerWebRtc (st : ConnState) (code : Nat) : ConnState × List ConnEffect :=
  let wasStarted := st.status.started
  let st1 := { st with status := { st.status with started := false },
                       ws := some .wsClosed,
                       interval := false }
  let canResume := code = 4015 ∨ code < 4000
  if canResume ∧ wasStarted then
    let (st2, effs) := start { st1 with status := { st1.status with resuming := true } }
    (st2, .closeWebRtc :: effs)
  else (st1, [.closeWebRtc])

/-- `stop()` of the `part_003` variant: clears the heartbeat interval,
unsets started and closes the channel. -/
def stopUdp (st : ConnState) : ConnState × List ConnEffect :=
  ({ st with interval := false,
             status := { st.status with started := false },
             ws := st.ws.map (fun _ => .closing) }, [.closeUdp])

/-! ## DAVE epoch/transition bookkeeping -/

/-- JS `Map.get`. -/
def mapGet (m : List (Nat × Nat)) (k : Nat) : Option Nat :=
  (m.find? (fun p => p.1 == k)).map (·.2)

/-- JS `Map.set`: replace the value under an existing key, else append. -/
def mapSet (m : List (Nat × Nat)) (k v : Nat) : List (Nat × Nat) :=
  if (m.find? (fun p => p.1 == k)).isSome then
    m.map (fun p => if p.1 == k then (k, v) else p)
  else m ++ [(k, v)]

/-- JS `Map.delete`. -/
def mapDelete (m : List (Nat × Nat)) (k : Nat) : List (Nat × Nat) :=
  m.eraseP (fun p => p.1 == k)

/-- The DAVE fields of `BaseMediaConnection`. -/
structure DaveState where
  daveProtocolVersion : Nat
  daveDowngraded : Bool
  davePendingTransitions : List (Nat × Nat)
  deriving Repr, DecidableEq

/-- `executePendingTransition`: an unknown id logs and returns; a known
id installs the pending protocol version, maintains the downgraded flag
and removes the entry. -/
def executePendingTransition (transitionId : Nat) (st : DaveState) :
    DaveState × List ConnEffect :=
  match mapGet st.davePendingTransitions transitionId with
  | none => (st, [])
  | some newVersion =>
    let oldVersion := st.daveProtocolVersion
    let st1 := { st with daveProtocolVersion := newVersion }
    let (st2, effs) :=
      if oldVersion ≠ newVersion ∧ newVersion = 0 then
        ({ st1 with daveDowngraded := true }, [])
      else if 0 < transitionId ∧ st1.daveDowngraded then
        ({ st1 with daveDowngraded := false }, [.setPassthrough true 10])
      else (st1, [])
    ({ st2 with davePendingTransitions := mapDelete st2.davePendingTransitions transitionId },
     effs)

/-- The `DAVE_PREPARE_TRANSITION` branch of the message handler: record
the pending transition; id 0 executes immediately, other ids answer with
transition-ready (after an optional passthrough grace window). -/
def handlePrepareTransition (transition_id protocol_version : Nat) (st : DaveState) :
    DaveState × List ConnEffect :=
  let st1 := { st with
    davePendingTransitions := mapSet st.davePendingTransitions transition_id protocol_version }
  if transition_id = 0 then
    executePendingTransition transition_id st1
  else
    let effs := if protocol_version = 0 then [ConnEffect.setPassthrough true 120] else []
    (st1, effs ++ [.sendText opDaveTransitionReady])

/-- The `DAVE_EXECUTE_TRANSITION` branch of the message handler. -/
def handleExecuteTransition (transition_id : Nat) (st : DaveState) :
    DaveState × List ConnEffect :=
  executePendingTransition transition_id st

/-! ## Concrete test vectors -/

/-- Build a writer state by a sequence of `writeBits` calls; used to
assemble bit-exact SPS test inputs. -/
def wchain (l : List (Nat × Nat)) : WState :=
  l.foldl (fun w (p : Nat × Nat) => writeBits p.1 p.2 w) ⟨[], 0, 0⟩

/-- A well-formed baseline-profile SPS (profile 66, level 30,
`max_num_ref_frames = 1`) whose VUI is present and already carries a
bitstream-restriction block with `max_bytes_per_pic_denom = 5`,
`max_bits_per_mb_denom = 1`, both mv-length fields 16,
`max_num_reorder_frames = 3` and `max_dec_frame_buffering = 4`. -/
def spsWithRestriction : List Nat :=
  0x67 :: (flush (wchain [(66,8),(0,8),(30,8),(1,1),(1,1),(3,3),(2,3),(0,1),(1,1),(1,1),(1,1),(0,1),(0,1),
    (1,1),(0,1),(0,1),(0,1),(0,1),(0,1),(0,1),(0,1),(0,1),(1,1),(1,1),(6,5),(2,3),(17,9),(17,9),(4,5),(5,5),(1,1)])).arr

/-- A well-formed baseline-profile SPS with no VUI
(`max_num_ref_frames = 1`). -/
def spsNoVui : List Nat :=
  0x67 :: (flush (wchain [(66,8),(0,8),(30,8),(1,1),(1,1),(3,3),(2,3),(0,1),(1,1),(1,1),(1,1),(0,1),(0,1),(0,1),(1,1)])).arr

/-- The SPS NAL of the C4 scenario (NAL unit type 7; the Annex-B
packetizer aggregates it without parsing, so the body bytes are free and
chosen nonzero). -/
def c4SpsNal : List Nat := [0x67, 66, 7, 30, 218, 113, 5]

def c4PpsNal : List Nat := [0x68, 206, 60, 128]

/-- A 2000-byte IDR slice NAL. -/
def c4IdrNal : List Nat := 0x65 :: List.replicate 1999 0xAA

/-- The three-NAL access unit of the end-to-end scenario: SPS, PPS and a
2000-byte IDR slice, with three-byte start codes. -/
def c4Frame : List Nat :=
  startCode3 ++ c4SpsNal ++ startCode3 ++ c4PpsNal ++ startCode3 ++ c4IdrNal

/-- A frame whose single NAL is a truncated SPS: the NAL header byte
announces an SPS but no payload follows, so the rewrite runs out of
data. -/
def c2BadFrame : List Nat := startCode3 ++ [0x67]

/-- A connection state with both credentials, started, an open socket
and a live heartbeat timer. -/
def connReadyState : ConnState :=
  { status := { hasSession := true, hasToken := true, started := true, resuming := false },
    ws := some .wsOpen, interval := true,
    serverId := some "guild", session_id := some "sess", token := some "tok" }

/-- A connection state whose socket has been closed under it. -/
def connClosedState : ConnState :=
  { connReadyState with ws := some .wsClosed }

/-! ## Bit-by-bit reference semantics (C8) and bit-list abstraction (C1)

`readBitsOneAtATime`/`writeBitsOneAtATime` perform the same operation as
`readBits`/`writeBits` one bit at a time: `n` single-bit calls, the value
assembled (resp. decomposed) MSB-first with the same 32-bit accumulator
the reader uses. -/

def readBitsOneAtATimeGo (acc count : Nat) (s : RState) :
    Except String (Nat × RState) :=
  match count with
  | 0 => .ok (acc, s)
  | count + 1 => do
    let (b, s') ← readBits 1 s
    readBitsOneAtATimeGo ((acc * 2 + b) % 2 ^ 32) count s'

def readBitsOneAtATime (count : Nat) (s : RState) : Except String (Nat × RState) :=
  readBitsOneAtATimeGo 0 count s

def writeBitsOneAtATime (bits count : Nat) (w : WState) : WState :=
  (List.range count).foldl (fun w j => writeBits (bits / 2 ^ (count - 1 - j) % 2) 1 w) w

/-- Cursor advance by one bit (with byte rollover), the state effect of a
successful single-bit read from a skip-normalized state. -/
def advance (s : RState) : RState :=
  if s.bitOffset + 1 = 8 then
    { s with bitOffset := 0, byteOffset := s.byteOffset + 1 }
  else { s with bitOffset := s.bitOffset + 1 }

/-- Cursor advance by `j` bits inside the current byte. -/
def advanceBy (j : Nat) (s : RState) : RState :=
  if s.bitOffset + j = 8 then
    { s with bitOffset := 0, byteOffset := s.byteOffset + 1 }
  else { s with bitOffset := s.bitOffset + j }

/-- The buffer ends with a truncated emulation-prevention sequence
`00 00 03`: the one shape on which the skip can move the cursor past the
end of the buffer. -/
def lastThree003 (l : List Nat) : Prop :=
  3 ≤ l.length ∧ l.getD (l.length - 3) 0 = 0 ∧ l.getD (l.length - 2) 0 = 0
    ∧ l.getD (l.length - 1) 0 = 3

/-- Writer state effect of a single-bit write (`writeBits b 1`) from a
state with `bitOffset < 8`. -/
def wAdv (b : Nat) (w : WState) : WState :=
  if w.bitOffset + 1 = 8 then
    flush { w with pendingByte := w.pendingByte ||| b * 2 ^ (8 - w.bitOffset - 1) }
  else
    { w with pendingByte := w.pendingByte ||| b * 2 ^ (8 - w.bitOffset - 1),
             bitOffset := w.bitOffset + 1 }

/-- The writer-state effect of `writeUnsignedExpGolomb` on a natural
number (it never throws for a non-negative argument). -/
def ueState (v : Nat) (w : WState) : WState :=
  writeBits (v + 1) (bitLen32 (v + 1)) (writeBits 0 (bitLen32 (v + 1) - 1) w)

/-- The writer-state effect of `addBitstreamRestriction`: the forced
block `motion_vectors=1, max_bytes=2, max_bits=1, mv_h=16, mv_v=16,
reorder=0, max_dec=max_num_ref_frames`. -/
def emitForcedRestriction (max_num_ref_frames : Nat) (w : WState) : WState :=
  ueState max_num_ref_frames (ueState 0 (ueState 16 (ueState 16 (ueState 1
    (ueState 2 (writeBits 1 1 w))))))

/-- The writer-state effect of the no-VUI branch of `spsVuiPart` after the
forced `vui_parameters_present_flag` bit: the empty VUI preamble followed
by the forced restriction block. -/
def emitNoVuiTail (max_num_ref_frames : Nat) (w : WState) : WState :=
  emitForcedRestriction max_num_ref_frames
    (writeBits 1 1 (writeBits 0 5 (writeBits 0 1 (writeBits 0 2 w))))

/-- The writer-state effect of the restriction-copying branch: the five
subfields are written back with the values `v1 .. v5` read from the input,
and only the last two fields are forced to `0` and `max_num_ref_frames`. -/
def emitCopiedRestriction (v1 v2 v3 v4 v5 max_num_ref_frames : Nat) (w : WState) : WState :=
  ueState max_num_ref_frames (ueState 0 (ueState v5 (ueState v4 (ueState v3
    (ueState v2 (writeBits v1 1 w))))))

/-! # Theorems -/

/-! ## Helper lemmas -/

theorem nthSequence_eq (s : Nat) :
    ∀ k, 1 ≤ k → nthSequence s k = (s + k) % 65536 := by
  intro k hk
  induction k with
  | zero => omega
  | succ n ih =>
    rcases Nat.eq_zero_or_pos n with h0 | hpos
    · subst h0
      simp [nthSequence, getNewSequence, max_int16bit]
    · have := ih hpos
      simp only [nthSequence, this, getNewSequence, max_int16bit]
      norm_num [Nat.add_mod_right]
      omega

/-! ## C3: signed exp-Golomb round trip -/

/-- C3: the claim states that `writeSignedExpGolomb` inverts the signed
mapping for every integer including 0.  The reader indeed decodes the
single bit 1 (unsigned value 0) to the signed value 0, but the writer,
asked to encode 0, takes its nonnegative branch and calls
`writeUnsignedExpGolomb(2*0 - 1) = writeUnsignedExpGolomb(-1)`, which
throws — contradicting the mapping documented in the reader
(`x <= 0 => -2x`). -/
theorem writeSignedExpGolomb_zero_throws :
    writeSignedExpGolomb 0 ⟨[], 0, 0⟩ = .error "Expected a non-negative number" ∧
    readSignedExpGolomb ⟨[128], 0, 0⟩ = .ok (0, ⟨[128], 0, 1⟩) := by
  constructor
  · rfl
  · decide

/-! ## C9: sequence numbers wrap mod 2^16 -/

/-- C9: starting from any stored sequence state `s`, the `k`-th packet of
a run of `N > 65536` packets is assigned `(s + k) % 65536`, and no value
repeats inside any window shorter than 65536 packets. -/
theorem getNewSequence_wraps (s N : Nat) (hN : 65536 < N) :
    (∀ k, 1 ≤ k → k ≤ N → nthSequence s k = (s + k) % 65536) ∧
    (∀ i j, 1 ≤ i → i < j → j ≤ N → j - i < 65536 →
      nthSequence s i ≠ nthSequence s j) := by
  constructor
  · intro k hk _
    exact nthSequence_eq s k hk
  · intro i j hi hij hjN hwin
    rw [nthSequence_eq s i hi, nthSequence_eq s j (by omega)]
    intro h
    omega

/-- Witness for C9 at `s = 41`, `N = 65537`. -/
theorem getNewSequence_wraps_witness :
    (∀ k, 1 ≤ k → k ≤ 65537 → nthSequence 41 k = (41 + k) % 65536) ∧
    (∀ i j, 1 ≤ i → i < j → j ≤ 65537 → j - i < 65536 →
      nthSequence 41 i ≠ nthSequence 41 j) :=
  getNewSequence_wraps 41 65537 (by norm_num)

/-! ## C10: sends are silent no-ops on a non-open socket -/

/-- C10: `sendOpcode` and `sendOpcodeBinary` send nothing, throw nothing
and leave the state unchanged whenever the control socket is absent or
not OPEN; in particular a heartbeat tick fired after the socket closed
sends nothing. -/
theorem sendOpcode_closed_noop (st : ConnState) (code codeB : Nat)
    (h : st.ws ≠ some .wsOpen) :
    sendOpcode st code = (st, []) ∧ sendOpcodeBinary st codeB = (st, []) ∧
    heartbeatTick st = (st, []) := by
  refine ⟨?_, ?_, ?_⟩ <;> simp [sendOpcode, sendOpcodeBinary, heartbeatTick, h]

/-- Witness for C10 on a concrete closed-socket state. -/
theorem sendOpcode_closed_noop_witness :
    sendOpcode connClosedState 5 = (connClosedState, []) ∧
    sendOpcodeBinary connClosedState 26 = (connClosedState, []) ∧
    heartbeatTick connClosedState = (connClosedState, []) :=
  sendOpcode_closed_noop connClosedState 5 26 (by decide)

/-! ## C5: heartbeat timer on socket close -/

/-- C5 counterexample: in the `part_003` connection variant, a socket
close (here with terminal code 4006) leaves the heartbeat interval
installed — the close handler never clears it, contradicting the claim
that closing always clears the heartbeat timer. -/
theorem closeHandlerUdp_keeps_interval :
    ((closeHandlerUdp connReadyState 4006).1).interval = true := by
  decide

/-- C5 amended: in the `part_004` (WebRTC) connection variant, the close
handler clears the heartbeat interval for every close code and every
state. -/
theorem closeHandlerWebRtc_clears_interval (st : ConnState) (code : Nat) :
    ((closeHandlerWebRtc st code).1).interval = false := by
  simp only [closeHandlerWebRtc, start]
  split
  · split
    · split <;> simp
    · simp
  · simp

/-! ## C6: start() gating and single handshake -/

/-- C6: `start()` is a no-op — state unchanged, in particular the started
flag, and no socket opened or message sent — unless both credential flags
are set and the connection is not already started; and the open handler
of a successfully opened channel sends exactly one handshake message:
Resume when the resuming flag was set, Identify otherwise. -/
theorem start_gating_single_handshake (st : ConnState)
    (hnoop : ¬(st.status.hasSession ∧ st.status.hasToken) ∨ st.status.started = true)
    (hws : st.ws = some .wsOpen)
    (hsrv : st.serverId ≠ none) (hsess : st.session_id ≠ none) (htok : st.token ≠ none) :
    start st = (st, []) ∧
    ∃ st', openHandler st = .ok (st',
      [ConnEffect.sendText (if st.status.resuming then opResume else opIdentify)]) := by
  constructor
  · rcases hnoop with h | h
    · simp [start, h]
    · by_cases hc : st.status.hasSession ∧ st.status.hasToken
      · simp [start, hc, h]
      · simp [start, hc]
  · by_cases hr : st.status.resuming
    · refine ⟨{ st with status := { st.status with resuming := false } }, ?_⟩
      simp [openHandler, hr, resume, hsrv, hsess, htok, sendOpcode, hws]
    · refine ⟨st, ?_⟩
      simp [openHandler, hr, identify, hsrv, hsess, htok, sendOpcode, hws]

/-- Witness for C6 on a started, open, fully credentialed state. -/
theorem start_gating_single_handshake_witness :
    start connReadyState = (connReadyState, []) ∧
    ∃ st', openHandler connReadyState = .ok (st',
      [ConnEffect.sendText (if connReadyState.status.resuming then opResume else opIdentify)]) :=
  start_gating_single_handshake connReadyState (by decide)
    (by decide) (by decide) (by decide) (by decide)

/-! ## C7: transition execution frame conditions -/

theorem find?_mapSet (m : List (Nat × Nat)) (k v : Nat) :
    List.find? (fun p => p.1 == k) (mapSet m k v) = some (k, v) := by
  unfold mapSet
  split
  case isTrue h =>
    induction m with
    | nil => simp at h
    | cons a t ih =>
      cases hb : (a.1 == k) with
      | true =>
        have : a.1 = k := by simpa using hb
        simp [List.find?, hb, this]
      | false =>
        have hfind : List.find? (fun p => p.1 == k) (a :: t)
            = List.find? (fun p => p.1 == k) t := by
          simp [List.find?, hb]
        rw [hfind] at h
        simpa [List.find?, hb] using ih h
  case isFalse h =>
    induction m with
    | nil => simp [List.find?]
    | cons a t ih =>
      have hb : (a.1 == k) = false := by
        cases hb : (a.1 == k)
        · rfl
        · exact absurd (by simp [List.find?, hb]) h
      rw [List.cons_append]
      simp only [List.find?, hb]
      refine ih ?_
      intro hc
      apply h
      simpa [List.find?, hb] using hc

theorem mapGet_mapSet (m : List (Nat × Nat)) (k v : Nat) :
    mapGet (mapSet m k v) k = some v := by
  simp [mapGet, find?_mapSet]

/-- C7: executing a transition id that is not pending leaves the whole
DAVE state (protocol version, downgraded flag, pending map) unchanged and
produces no effect; a prepare announcement with transition id 0 installs
the announced protocol version immediately within the same message
handling, without emitting a transition-ready reply. -/
theorem daveTransition_unknown_and_zero (st : DaveState) (tid v : Nat)
    (hunknown : mapGet st.davePendingTransitions tid = none) :
    executePendingTransition tid st = (st, []) ∧
    ((handlePrepareTransition 0 v st).1.daveProtocolVersion = v ∧
      ∀ e ∈ (handlePrepareTransition 0 v st).2,
        e ≠ ConnEffect.sendText opDaveTransitionReady) := by
  refine ⟨?_, ?_, ?_⟩
  · simp [executePendingTransition, hunknown]
  · simp only [handlePrepareTransition, if_pos rfl, executePendingTransition,
      mapGet_mapSet]
    by_cases hc : ¬st.daveProtocolVersion = v ∧ v = 0
    · simp only [hc, if_true]
      split <;> rfl
    · simp [hc]
  · intro e he
    simp only [handlePrepareTransition, if_pos rfl, executePendingTransition,
      mapGet_mapSet] at he
    by_cases hc : ¬st.daveProtocolVersion = v ∧ v = 0
    · simp only [hc, if_true] at he
      revert he
      split <;> simp
    · simp [hc] at he

/-- Witness for C7 with an empty pending map and unknown id 5. -/
theorem daveTransition_unknown_and_zero_witness :
    executePendingTransition 5 ⟨1, false, []⟩ = (⟨1, false, []⟩, []) ∧
    ((handlePrepareTransition 0 2 ⟨1, false, []⟩).1.daveProtocolVersion = 2 ∧
      ∀ e ∈ (handlePrepareTransition 0 2 ⟨1, false, []⟩).2,
        e ≠ ConnEffect.sendText opDaveTransitionReady) :=
  daveTransition_unknown_and_zero ⟨1, false, []⟩ 5 2 (by decide)

/-! ## C2: malformed SPS in the send path -/

theorem mapM_error_of_mem {α β : Type} (l : List α) (f : α → Except String β)
    (h : ∃ x ∈ l, ∃ e, f x = .error e) :
    ∃ e', l.mapM f = .error e' := by
  induction l with
  | nil => simp at h
  | cons a t ih =>
    rw [List.mapM_cons]
    rcases h with ⟨x, hx, e, hfx⟩
    rcases List.mem_cons.mp hx with rfl | hxt
    · exact ⟨e, by simp [hfx, Bind.bind, Except.bind]⟩
    · cases hfa : f a with
      | error ea => exact ⟨ea, by simp [hfa, Bind.bind, Except.bind]⟩
      | ok b =>
        rcases ih ⟨x, hxt, e, hfx⟩ with ⟨e', he'⟩
        refine ⟨e', ?_⟩
        simp only [List.mapM] at he'
        simp [hfa, he', Bind.bind, Except.bind]

/-- C2 counterexample: a frame whose only NAL is a truncated SPS (the
header byte `0x67` with an empty payload).  The claim predicts that
sending does not raise and the original bytes are forwarded; the code
propagates the rewrite error out of `sendVideoFrame` instead. -/
theorem processVideoFrameH264_badSPS_throws :
    processVideoFrameH264 c2BadFrame = .error "Bad byte offset" := by
  decide

/-- C2 amended: whenever a frame contains an SPS NAL on which
`rewriteSPSVUI` fails, the H.264 path of `sendVideoFrame` propagates the
rewrite error (there is no fallback to the original bytes). -/
theorem processVideoFrameH264_propagates (frame : List Nat)
    (h : ∃ nalu ∈ splitNalu frame, h264GetUnitType nalu = h264NalUnitTypeSPS ∧
      ∃ e, rewriteSPSVUI nalu = .error e) :
    ∃ e', processVideoFrameH264 frame = .error e' := by
  rcases h with ⟨nalu, hmem, htype, e, herr⟩
  have hstep : ∃ e₀, rewriteNaluStep nalu = .error e₀ :=
    ⟨e, by simp [rewriteNaluStep, htype, herr, Bind.bind, Except.bind]⟩
  rcases hstep with ⟨e₀, hstep⟩
  rcases mapM_error_of_mem (splitNalu frame) rewriteNaluStep
    ⟨nalu, hmem, e₀, hstep⟩ with ⟨e', he'⟩
  exact ⟨e', by simp only [processVideoFrameH264, Bind.bind, Except.bind, he']⟩

/-- Witness for C2 amended at the truncated-SPS frame. -/
theorem processVideoFrameH264_propagates_witness :
    ∃ e', processVideoFrameH264 c2BadFrame = .error e' :=
  processVideoFrameH264_propagates c2BadFrame
    ⟨[0x67], by decide, by decide, "Bad byte offset", by decide⟩

/-! ## C4: three-NAL access unit scenario -/

theorem splitNaluAux_nil (fuel : Nat) (cur : List Nat) (acc : List (List Nat)) :
    splitNaluAux fuel [] cur acc = acc ++ [cur] := by
  cases fuel <;> simp [splitNaluAux, isStartCode3]

theorem isStartCode3_cons_ne (b : Nat) (rest : List Nat) (hb : b ≠ 0) :
    isStartCode3 (b :: rest) = false := by
  cases b with
  | zero => omega
  | succ _ => simp [isStartCode3]

theorem splitNaluAux_consume (seg : List Nat) (hseg : ∀ b ∈ seg, b ≠ 0) :
    ∀ (fuel : Nat) (rest cur : List Nat) (acc : List (List Nat)),
      seg.length ≤ fuel →
      splitNaluAux fuel (seg ++ rest) cur acc
        = splitNaluAux (fuel - seg.length) rest (cur ++ seg) acc := by
  induction seg with
  | nil => intro fuel rest cur acc _; simp
  | cons b seg' ih =>
    intro fuel rest cur acc hlen
    cases fuel with
    | zero => simp at hlen
    | succ f =>
      have hb : b ≠ 0 := hseg b (by simp)
      have hcode : isStartCode3 (b :: (seg' ++ rest)) = false :=
        isStartCode3_cons_ne _ _ hb
      simp only [List.cons_append, splitNaluAux, hcode, Bool.false_eq_true, if_false]
      rw [ih (fun x hx => hseg x (by simp [hx])) f rest (cur ++ [b]) acc (by simpa using hlen)]
      simp

theorem splitNaluAux_consume_all (seg : List Nat) (hseg : ∀ b ∈ seg, b ≠ 0)
    (fuel : Nat) (cur : List Nat) (acc : List (List Nat))
    (hlen : seg.length ≤ fuel) :
    splitNaluAux fuel seg cur acc = acc ++ [cur ++ seg] := by
  have := splitNaluAux_consume seg hseg fuel [] cur acc hlen
  rw [List.append_nil] at this
  rw [this, splitNaluAux_nil]

theorem splitNaluAux_code (fuel : Nat) (rest cur : List Nat)
    (acc : List (List Nat)) (hf : 0 < fuel) :
    splitNaluAux fuel (0 :: 0 :: 1 :: rest) cur acc
      = splitNaluAux (fuel - 1) rest [] (acc ++ [cur]) := by
  cases fuel with
  | zero => omega
  | succ f => simp [splitNaluAux, isStartCode3]

theorem partitionAux_nil (fuel mtu : Nat) :
    partitionDataMTUSizedChunksAux fuel mtu [] = [] := by
  cases fuel <;> simp [partitionDataMTUSizedChunksAux]

theorem partition_two (mtu : Nat) (data : List Nat) (h0 : 0 < mtu)
    (h1 : mtu < data.length) (h2 : data.length ≤ 2 * mtu) :
    partitionDataMTUSizedChunks mtu data = [data.take mtu, data.drop mtu] := by
  obtain ⟨n, hn⟩ : ∃ n, data.length = n + 1 := ⟨data.length - 1, by omega⟩
  obtain ⟨m, hm⟩ : ∃ m, n = m + 1 := ⟨n - 1, by omega⟩
  have hd2 : (data.drop mtu).length = data.length - mtu := by
    simp [List.length_drop]
  have ht : List.take mtu (data.drop mtu) = data.drop mtu :=
    List.take_of_length_le (by omega)
  have hdd : List.drop mtu (data.drop mtu) = [] :=
    List.drop_eq_nil_of_le (by omega)
  unfold partitionDataMTUSizedChunks
  rw [hn, hm]
  simp only [partitionDataMTUSizedChunksAux]
  rw [if_neg (show ¬ mtu = 0 by omega), if_neg (show ¬ data.length = 0 by omega),
    if_neg (show ¬ mtu = 0 by omega), if_neg (show ¬ (data.drop mtu).length = 0 by omega),
    ht, hdd, partitionAux_nil]

theorem sendFrameLoop_aggregate (nalu : List Nat) (rest : List (List Nat))
    (agg : List (List Nat)) (size : Nat) (st : PacketizerState)
    (h1 : nalu.length ≤ st.mtu) (h2 : ¬ st.mtu ≤ size + nalu.length) :
    sendFrameLoop (nalu :: rest) agg size st
      = sendFrameLoop rest (agg ++ [nalu]) (size + nalu.length) st := by
  simp only [sendFrameLoop]
  rw [if_pos h1, if_neg h2]

theorem sendFrameLoop_last_fragment (nalu : List Nat) (agg : List (List Nat))
    (size : Nat) (st : PacketizerState)
    (h1 : ¬ nalu.length ≤ st.mtu) (h2 : size ≠ 0) :
    sendFrameLoop [nalu] agg size st
      = ((sendFragmented nalu true (sendNonFragmented agg false st).1).1,
         (sendNonFragmented agg false st).2
           :: (sendFragmented nalu true (sendNonFragmented agg false st).1).2) := by
  rcases hnf : sendNonFragmented agg false st with ⟨st1, pkt1⟩
  rcases hsf : sendFragmented nalu true st1 with ⟨st2, pkts⟩
  simp only [sendFrameLoop, List.isEmpty]
  rw [if_neg h1, if_pos h2]
  simp [hnf, hsf]

/-- C4: packetizing a three-NAL access unit — an SPS, a PPS that together
fit one MTU, and a 2000-byte IDR slice — with MTU 1200 emits exactly
three RTP packets: a STAP-A aggregate (type 24, header byte 120 for the
usual SPS/PPS headers) carrying the length-prefixed SPS and PPS, an FU-A
packet with the start bit set (FU header `0x85`), and an FU-A packet
with the end bit set (`0x45`); the three sequence numbers are
consecutive mod 2^16 and only the last packet carries the marker bit.
(The NAL bytes are arbitrary nonzero bytes with the scenario headers:
the modelled `splitNalu` splits at three-byte start codes.) -/
theorem sendFrame_threeNal_scenario (sps pps idr : List Nat) (st : PacketizerState)
    (hmtu : st.mtu = 1200)
    (hsps0 : ∀ b ∈ sps, b ≠ 0) (hpps0 : ∀ b ∈ pps, b ≠ 0) (hidr0 : ∀ b ∈ idr, b ≠ 0)
    (hsps_len : 0 < sps.length)
    (hagg : sps.length + pps.length < 1200)
    (hidr_len : idr.length = 2000)
    (hsps_head : sps.headD 0 = 0x67) (hpps_head : pps.headD 0 = 0x68)
    (hidr_head : idr.take 1 = [0x65]) :
    (sendFrame (startCode3 ++ sps ++ startCode3 ++ pps ++ startCode3 ++ idr) st).2 =
      [⟨⟨false, (st.sequence + 1) % 65536, st.timestamp⟩,
          [120] ++ [sps.length / 256 % 256, sps.length % 256] ++ sps
            ++ [pps.length / 256 % 256, pps.length % 256] ++ pps⟩,
       ⟨⟨false, (st.sequence + 2) % 65536, st.timestamp⟩,
          [0x7c, 0x85] ++ (idr.drop 1).take 1200⟩,
       ⟨⟨true, (st.sequence + 3) % 65536, st.timestamp⟩,
          [0x7c, 0x45] ++ (idr.drop 1).drop 1200⟩] := by
  have hL : (sps ++ (0 :: 0 :: 1 :: (pps ++ (0 :: 0 :: 1 :: idr)))).length
      = sps.length + pps.length + 2006 := by
    simp only [List.length_append, List.length_cons, hidr_len]
    omega
  have hsplit : splitNalu (startCode3 ++ sps ++ startCode3 ++ pps ++ startCode3 ++ idr)
      = [sps, pps, idr] := by
    have hshape : startCode3 ++ sps ++ startCode3 ++ pps ++ startCode3 ++ idr
        = 0 :: 0 :: 1 :: (sps ++ (0 :: 0 :: 1 :: (pps ++ (0 :: 0 :: 1 :: idr)))) := by
      simp [startCode3]
    rw [hshape]
    rw [show splitNalu (0 :: 0 :: 1 :: (sps ++ (0 :: 0 :: 1 :: (pps ++ (0 :: 0 :: 1 :: idr)))))
        = splitNaluAux (sps ++ (0 :: 0 :: 1 :: (pps ++ (0 :: 0 :: 1 :: idr)))).length
            (sps ++ (0 :: 0 :: 1 :: (pps ++ (0 :: 0 :: 1 :: idr)))) [] [] from by
      simp [splitNalu, isStartCode3]]
    rw [hL]
    have e1 := splitNaluAux_consume sps hsps0 (sps.length + pps.length + 2006)
      (0 :: 0 :: 1 :: (pps ++ (0 :: 0 :: 1 :: idr))) [] [] (by omega)
    rw [e1]
    have e2 := splitNaluAux_code (sps.length + pps.length + 2006 - sps.length)
      (pps ++ (0 :: 0 :: 1 :: idr)) ([] ++ sps) [] (by omega)
    rw [e2]
    have e3 := splitNaluAux_consume pps hpps0
      (sps.length + pps.length + 2006 - sps.length - 1)
      (0 :: 0 :: 1 :: idr) [] ([] ++ [[] ++ sps]) (by omega)
    rw [e3]
    have e4 := splitNaluAux_code
      (sps.length + pps.length + 2006 - sps.length - 1 - pps.length)
      idr ([] ++ pps) ([] ++ [[] ++ sps]) (by omega)
    rw [e4]
    have e5 := splitNaluAux_consume_all idr hidr0
      (sps.length + pps.length + 2006 - sps.length - 1 - pps.length - 1)
      [] (([] ++ [[] ++ sps]) ++ [[] ++ pps]) (by omega)
    rw [e5]
    simp
  have hmtuA : ({ st with sequence := (st.sequence + 1) % 65536 } : PacketizerState).mtu
      = 1200 := hmtu
  have hmk : makeAggregateUnitHeaderH264 [sps, pps] = [120] := by
    simp only [makeAggregateUnitHeaderH264, List.any_cons, List.any_nil,
      List.foldl_cons, List.foldl_nil]
    simp only [List.headD_eq_head?_getD] at hsps_head hpps_head
    simp [hsps_head, hpps_head]
    decide
  have hnf : sendNonFragmented [sps, pps] false st
      = ({ st with sequence := (st.sequence + 1) % 65536 },
         ⟨⟨false, (st.sequence + 1) % 65536, st.timestamp⟩,
          [120] ++ [sps.length / 256 % 256, sps.length % 256] ++ sps
            ++ [pps.length / 256 % 256, pps.length % 256] ++ pps⟩) := by
    simp [sendNonFragmented, makeRtpHeader, getNewSequence, max_int16bit, hmk]
  have hpart : partitionDataMTUSizedChunks 1200 (idr.drop 1)
      = [(idr.drop 1).take 1200, (idr.drop 1).drop 1200] := by
    refine partition_two 1200 (idr.drop 1) (by omega) ?_ ?_ <;>
      simp only [List.length_drop, hidr_len] <;> omega
  have hfu1 : makeFragmentationUnitHeaderH264 true false [0x65] = [0x7c, 0x85] := by decide
  have hfu2 : makeFragmentationUnitHeaderH264 false true [0x65] = [0x7c, 0x45] := by decide
  have hseq2 : ((st.sequence + 1) % 65536 + 1) % 65536 = (st.sequence + 2) % 65536 := by
    omega
  have hseq3 : ((st.sequence + 2) % 65536 + 1) % 65536 = (st.sequence + 3) % 65536 := by
    omega
  have hsf : sendFragmented idr true { st with sequence := (st.sequence + 1) % 65536 }
      = ({ st with sequence := (st.sequence + 3) % 65536 },
         [⟨⟨false, (st.sequence + 2) % 65536, st.timestamp⟩,
            [0x7c, 0x85] ++ (idr.drop 1).take 1200⟩,
          ⟨⟨true, (st.sequence + 3) % 65536, st.timestamp⟩,
            [0x7c, 0x45] ++ (idr.drop 1).drop 1200⟩]) := by
    simp only [sendFragmented, h264SplitHeader, hmtu, hpart, hidr_head]
    simp [sendFragmentedLoop, makeRtpHeader, getNewSequence, max_int16bit, hfu1, hfu2,
      hseq2, hseq3]
  rw [show sendFrame (startCode3 ++ sps ++ startCode3 ++ pps ++ startCode3 ++ idr) st
      = sendFrameLoop [sps, pps, idr] [] 0 st from by
    unfold sendFrame
    rw [hsplit]]
  rw [sendFrameLoop_aggregate sps [pps, idr] [] 0 st
    (by rw [hmtu]; omega) (by rw [hmtu]; omega)]
  rw [sendFrameLoop_aggregate pps [idr] ([] ++ [sps]) (0 + sps.length) st
    (by rw [hmtu]; omega) (by rw [hmtu]; omega)]
  rw [sendFrameLoop_last_fragment idr (([] ++ [sps]) ++ [pps])
    ((0 + sps.length) + pps.length) st (by rw [hmtu]; omega) (by omega)]
  simp only [List.nil_append, List.cons_append]
  rw [hnf]
  simp only [hsf]
  simp

/-- Witness for C4 at the concrete scenario vectors: SPS and PPS NAL
units plus the 2000-byte IDR slice, MTU 1200, fresh packetizer state. -/
theorem sendFrame_threeNal_scenario_witness :
    (sendFrame c4Frame ⟨0, 0, 1200⟩).2 =
      [⟨⟨false, 1 % 65536, 0⟩,
          [120] ++ [c4SpsNal.length / 256 % 256, c4SpsNal.length % 256] ++ c4SpsNal
            ++ [c4PpsNal.length / 256 % 256, c4PpsNal.length % 256] ++ c4PpsNal⟩,
       ⟨⟨false, 2 % 65536, 0⟩, [0x7c, 0x85] ++ (c4IdrNal.drop 1).take 1200⟩,
       ⟨⟨true, 3 % 65536, 0⟩, [0x7c, 0x45] ++ (c4IdrNal.drop 1).drop 1200⟩] :=
  sendFrame_threeNal_scenario c4SpsNal c4PpsNal c4IdrNal ⟨0, 0, 1200⟩ rfl
    (by decide) (by decide)
    (fun b hb => by
      rcases List.mem_cons.mp hb with rfl | hb'
      · omega
      · have := List.eq_of_mem_replicate hb'
        omega)
    (by decide) (by decide)
    (by simp only [c4IdrNal, List.length_cons, List.length_replicate])
    (by decide) (by decide)
    (by simp only [c4IdrNal, List.take_succ_cons, List.take_zero])

/-! ## C8 helper lemmas: reader -/

theorem epSkip_bitOffset (s : RState) : (epSkip s).bitOffset = s.bitOffset := by
  unfold epSkip
  split <;> rfl

theorem epSkip_buf (s : RState) : (epSkip s).buf = s.buf := by
  unfold epSkip
  split <;> rfl

theorem epSkip_midbyte (s : RState) (h : s.bitOffset ≠ 0) : epSkip s = s := by
  unfold epSkip
  rw [if_neg]
  intro hc
  exact h hc.1

theorem epSkip_byteOffset_lt (s : RState) (h003 : ¬ lastThree003 s.buf)
    (hlt : s.byteOffset < s.buf.length) :
    (epSkip s).byteOffset < s.buf.length := by
  unfold epSkip
  split
  case isTrue hc =>
    rcases hc with ⟨hb0, h2, hm2, hm1, h3⟩
    by_contra hge
    have hle : s.byteOffset = s.buf.length - 1 := by simp at hge; omega
    exact h003 ⟨by omega, by rw [show s.buf.length - 3 = s.byteOffset - 2 by omega]; exact hm2,
      by rw [show s.buf.length - 2 = s.byteOffset - 1 by omega]; exact hm1,
      by rw [show s.buf.length - 1 = s.byteOffset by omega]; exact h3⟩
  case isFalse => exact hlt

theorem mod_two_pow_succ_low (a b j : Nat) (hb : b < 2) :
    (a * 2 + b) % 2 ^ (j + 1) = a % 2 ^ j * 2 + b := by
  have h1 : a * 2 % (2 ^ j * 2) = a % 2 ^ j * 2 := Nat.mul_mod_mul_right 2 a (2 ^ j)
  have h2 : 2 ^ (j + 1) = 2 ^ j * 2 := by ring
  have hp : 0 < 2 ^ j := Nat.two_pow_pos j
  have h3 : 2 ≤ 2 ^ (j + 1) := by rw [h2]; omega
  calc (a * 2 + b) % 2 ^ (j + 1)
      = ((a * 2) % 2 ^ (j + 1) + b % 2 ^ (j + 1)) % 2 ^ (j + 1) := by
        rw [Nat.add_mod]
    _ = (a % 2 ^ j * 2 + b) % 2 ^ (j + 1) := by
        rw [Nat.mod_eq_of_lt (lt_of_lt_of_le hb h3), h2, h1]
    _ = a % 2 ^ j * 2 + b := by
        apply Nat.mod_eq_of_lt
        have := Nat.mod_lt a hp
        omega

theorem accMulAddMod (a c d M : Nat) :
    (a % M * c + d) % M = (a * c + d) % M :=
  ((Nat.mod_modEq a M).mul_right c).add_right d

theorem lor_disjoint (a b m : Nat) (hb : b < 2 ^ m) :
    2 ^ m * a ||| b = 2 ^ m * a + b := by
  apply Nat.eq_of_testBit_eq
  intro j
  rw [Nat.testBit_lor, Nat.testBit_mul_pow_two_add a hb j, Nat.testBit_mul_pow_two]
  by_cases hj : j < m
  · rw [if_pos hj, decide_eq_false (by omega : ¬ j ≥ m)]
    simp
  · rw [if_neg hj, decide_eq_true (by omega : j ≥ m),
      Nat.testBit_lt_two_pow (lt_of_lt_of_le hb (Nat.pow_le_pow_right (by omega) (by omega)))]
    simp

theorem readBits_one_eval (s : RState) (hb : s.byteOffset < s.buf.length)
    (ho : s.bitOffset < 8) :
    readBits 1 s = .ok ((epSkip s).buf.getD (epSkip s).byteOffset 0
        / 2 ^ (7 - s.bitOffset) % 2, advance (epSkip s)) := by
  have hoe : (epSkip s).bitOffset = s.bitOffset := epSkip_bitOffset s
  show readBitsAux 1 0 1 s = _
  unfold readBitsAux
  rw [if_neg (by omega : ¬ (1 = 0)), if_neg (by omega : ¬ s.buf.length ≤ s.byteOffset),
    if_neg (fun hc => absurd hc.2 (by omega) : ¬ ((epSkip s).bitOffset = 0 ∧ 8 ≤ 1))]
  have hk : 1 ⊓ (8 - (epSkip s).bitOffset) = 1 := by rw [hoe]; omega
  rw [hk, if_neg (by omega : ¬ (1 = 0))]
  have h71 : 8 - (epSkip s).bitOffset - 1 = 7 - s.bitOffset := by rw [hoe]; omega
  rw [h71]
  have hbit : (epSkip s).buf.getD (epSkip s).byteOffset 0 / 2 ^ (7 - s.bitOffset) % 2 < 2 :=
    Nat.mod_lt _ (by omega)
  have hval : (0 * 2 ^ 1 + (epSkip s).buf.getD (epSkip s).byteOffset 0
      / 2 ^ (7 - s.bitOffset) % 2 ^ 1) % 2 ^ 32
      = (epSkip s).buf.getD (epSkip s).byteOffset 0 / 2 ^ (7 - s.bitOffset) % 2 := by
    rw [pow_one, zero_mul, zero_add]
    exact Nat.mod_eq_of_lt (by omega)
  simp only [hval]
  unfold readBitsAux advance
  simp only [hoe]
  norm_num

theorem readBitsAux_fuel (f1 : Nat) : ∀ f2 acc count s, count ≤ f1 → count ≤ f2 →
    readBitsAux f1 acc count s = readBitsAux f2 acc count s := by
  induction f1 with
  | zero =>
    intro f2 acc count s h1 h2
    have hc : count = 0 := by omega
    subst hc
    cases f2 <;> simp [readBitsAux]
  | succ f ih =>
    intro f2 acc count s h1 h2
    cases count with
    | zero => cases f2 <;> simp [readBitsAux]
    | succ c =>
      cases f2 with
      | zero => omega
      | succ g =>
        unfold readBitsAux
        simp only [if_neg (by omega : ¬ (c + 1 = 0))]
        by_cases hb : s.buf.length ≤ s.byteOffset
        · simp only [if_pos hb]
        · simp only [if_neg hb]
          by_cases hfast : (epSkip s).bitOffset = 0 ∧ 8 ≤ c + 1
          · simp only [if_pos hfast]
            exact ih _ _ _ _ (by omega) (by omega)
          · simp only [if_neg hfast]
            by_cases hk : (c + 1) ⊓ (8 - (epSkip s).bitOffset) = 0
            · simp only [if_pos hk]
            · simp only [if_neg hk]
              exact ih _ _ _ _ (by omega) (by omega)

theorem mod_two_pow_succ_high (x j : Nat) :
    x % 2 ^ (j + 1) = x / 2 ^ j % 2 * 2 ^ j + x % 2 ^ j := by
  have h1 : x % 2 ^ (j + 1) / 2 ^ j = x / 2 ^ j % 2 := by
    rw [pow_succ, Nat.mod_mul_right_div_self]
  have h2 : x % 2 ^ (j + 1) % 2 ^ j = x % 2 ^ j :=
    Nat.mod_mod_of_dvd x ⟨2, by rw [pow_succ]⟩
  conv_lhs => rw [← Nat.div_add_mod (x % 2 ^ (j + 1)) (2 ^ j), h1, h2]
  ring

theorem advanceBy_succ (t : RState) (j : Nat) (h2 : t.bitOffset + j + 1 ≤ 8) :
    advanceBy (j + 1) t = advanceBy j (advance t) := by
  unfold advanceBy advance
  by_cases hro : t.bitOffset + 1 = 8
  · have hj : j = 0 := by omega
    subst hj
    rw [if_pos (by omega : t.bitOffset + (0 + 1) = 8)]
    simp
  · rw [if_neg hro]
    by_cases hend : t.bitOffset + (j + 1) = 8
    · rw [if_pos hend]
      show _ = if t.bitOffset + 1 + j = 8 then _ else _
      rw [if_pos (by omega : t.bitOffset + 1 + j = 8)]
    · rw [if_neg hend]
      show _ = if t.bitOffset + 1 + j = 8 then _ else _
      rw [if_neg (by omega : ¬ (t.bitOffset + 1 + j = 8))]
      have he : t.bitOffset + (j + 1) = t.bitOffset + 1 + j := by omega
      rw [he]

theorem oneGo_chunk : ∀ j acc count (t : RState), 1 ≤ j → t.bitOffset ≠ 0 →
    t.bitOffset + j ≤ 8 → j ≤ count → t.byteOffset < t.buf.length →
    readBitsOneAtATimeGo acc count t
      = readBitsOneAtATimeGo
          ((acc * 2 ^ j + t.buf.getD t.byteOffset 0 / 2 ^ (8 - t.bitOffset - j) % 2 ^ j)
            % 2 ^ 32)
          (count - j) (advanceBy j t) := by
  intro j
  induction j with
  | zero => intro _ _ _ h1; omega
  | succ jj ih =>
    intro acc count t _ h0 h8 hjc hb
    obtain ⟨c, rfl⟩ : ∃ c, count = c + 1 := ⟨count - 1, by omega⟩
    have ho : t.bitOffset < 8 := by omega
    have hskip : epSkip t = t := epSkip_midbyte t h0
    have h1 : readBits 1 t
        = .ok (t.buf.getD t.byteOffset 0 / 2 ^ (7 - t.bitOffset) % 2, advance t) := by
      rw [readBits_one_eval t hb ho, hskip]
    show readBitsOneAtATimeGo acc (c + 1) t = _
    rw [readBitsOneAtATimeGo, h1]
    show readBitsOneAtATimeGo
        ((acc * 2 + t.buf.getD t.byteOffset 0 / 2 ^ (7 - t.bitOffset) % 2) % 2 ^ 32) c
        (advance t) = _
    by_cases hjj : jj = 0
    · subst hjj
      show _ = readBitsOneAtATimeGo _ (c + 1 - 1) (advanceBy 1 t)
      have hs : advanceBy 1 t = advance t := by
        unfold advanceBy advance
        rfl
      have hv : (acc * 2 ^ 1 + t.buf.getD t.byteOffset 0 / 2 ^ (8 - t.bitOffset - 1)
          % 2 ^ 1) % 2 ^ 32
          = (acc * 2 + t.buf.getD t.byteOffset 0 / 2 ^ (7 - t.bitOffset) % 2) % 2 ^ 32 := by
        rw [pow_one, show 8 - t.bitOffset - 1 = 7 - t.bitOffset by omega]
      rw [hs, hv]
      rfl
    · have hadv : advance t = { t with bitOffset := t.bitOffset + 1 } := by
        unfold advance
        rw [if_neg (by omega : ¬ (t.bitOffset + 1 = 8))]
      rw [hadv]
      rw [ih _ c { t with bitOffset := t.bitOffset + 1 } (by omega) (by dsimp only; omega)
        (by dsimp only; omega) (by omega) (by dsimp only; exact hb)]
      dsimp only
      have hstate : advanceBy jj ({ t with bitOffset := t.bitOffset + 1 } : RState)
          = advanceBy (jj + 1) t := by
        rw [advanceBy_succ t jj (by omega), hadv]
      have hcount : c - jj = c + 1 - (jj + 1) := by omega
      have hx : t.buf.getD t.byteOffset 0 / 2 ^ (8 - t.bitOffset - (jj + 1)) % 2 ^ (jj + 1)
          = t.buf.getD t.byteOffset 0 / 2 ^ (7 - t.bitOffset) % 2 * 2 ^ jj
            + t.buf.getD t.byteOffset 0 / 2 ^ (8 - (t.bitOffset + 1) - jj) % 2 ^ jj := by
        rw [mod_two_pow_succ_high]
        have hdd : t.buf.getD t.byteOffset 0 / 2 ^ (8 - t.bitOffset - (jj + 1)) / 2 ^ jj
            = t.buf.getD t.byteOffset 0 / 2 ^ (7 - t.bitOffset) := by
          rw [Nat.div_div_eq_div_mul, ← pow_add,
            show 8 - t.bitOffset - (jj + 1) + jj = 7 - t.bitOffset by omega]
        rw [hdd, show 8 - t.bitOffset - (jj + 1) = 8 - (t.bitOffset + 1) - jj by omega]
      have hval : ((acc * 2 + t.buf.getD t.byteOffset 0 / 2 ^ (7 - t.bitOffset) % 2)
            % 2 ^ 32 * 2 ^ jj
            + t.buf.getD t.byteOffset 0 / 2 ^ (8 - (t.bitOffset + 1) - jj) % 2 ^ jj) % 2 ^ 32
          = (acc * 2 ^ (jj + 1)
            + t.buf.getD t.byteOffset 0 / 2 ^ (8 - t.bitOffset - (jj + 1)) % 2 ^ (jj + 1))
              % 2 ^ 32 := by
        rw [accMulAddMod, hx]
        ring_nf
      rw [hval, hstate, hcount]

theorem oneGo_aligned_chunk (j acc count : Nat) (s : RState) (h0 : s.bitOffset = 0)
    (hb : s.byteOffset < s.buf.length)
    (hb2 : (epSkip s).byteOffset < s.buf.length)
    (hj8 : j + 1 ≤ 8) (hjc : j + 1 ≤ count) :
    readBitsOneAtATimeGo acc count s
      = readBitsOneAtATimeGo
          ((acc * 2 ^ (j + 1)
            + (epSkip s).buf.getD (epSkip s).byteOffset 0 / 2 ^ (7 - j) % 2 ^ (j + 1))
            % 2 ^ 32)
          (count - (j + 1)) (advanceBy (j + 1) (epSkip s)) := by
  obtain ⟨c, rfl⟩ : ∃ c, count = c + 1 := ⟨count - 1, by omega⟩
  have hoe : (epSkip s).bitOffset = s.bitOffset := epSkip_bitOffset s
  have hbe : (epSkip s).buf = s.buf := epSkip_buf s
  have h1 : readBits 1 s
      = .ok ((epSkip s).buf.getD (epSkip s).byteOffset 0 / 2 ^ (7 - s.bitOffset) % 2,
        advance (epSkip s)) := readBits_one_eval s hb (by omega)
  have hadv : advance (epSkip s) = { epSkip s with bitOffset := 1 } := by
    unfold advance
    rw [if_neg (by rw [hoe, h0]; omega : ¬ ((epSkip s).bitOffset + 1 = 8)), hoe, h0]
  show readBitsOneAtATimeGo acc (c + 1) s = _
  rw [readBitsOneAtATimeGo, h1]
  show readBitsOneAtATimeGo
      ((acc * 2 + (epSkip s).buf.getD (epSkip s).byteOffset 0 / 2 ^ (7 - s.bitOffset) % 2)
        % 2 ^ 32) c (advance (epSkip s)) = _
  have hstate : advanceBy j ({ epSkip s with bitOffset := 1 } : RState)
      = advanceBy (j + 1) (epSkip s) := by
    rw [advanceBy_succ (epSkip s) j (by rw [hoe, h0]; omega), hadv]
  by_cases hj : j = 0
  · subst hj
    have hs1 : advance (epSkip s) = advanceBy 1 (epSkip s) := by
      rw [hadv, ← hstate]
      unfold advanceBy
      rw [if_neg (by dsimp only; omega : ¬ (({ epSkip s with bitOffset := 1 } : RState).bitOffset + 0 = 8))]
    rw [hs1, h0]
    show _ = readBitsOneAtATimeGo _ (c + 1 - 1) _
    have hv : (acc * 2 ^ (0 + 1)
        + (epSkip s).buf.getD (epSkip s).byteOffset 0 / 2 ^ (7 - 0) % 2 ^ (0 + 1)) % 2 ^ 32
        = (acc * 2 + (epSkip s).buf.getD (epSkip s).byteOffset 0 / 2 ^ (7 - 0) % 2)
          % 2 ^ 32 := by
      norm_num
    rw [hv]
    rfl
  · rw [hadv]
    rw [oneGo_chunk j _ c { epSkip s with bitOffset := 1 } (by omega) (by dsimp only; omega)
      (by dsimp only; omega) (by omega) (by dsimp only; rw [hbe]; exact hb2)]
    dsimp only
    rw [hstate, hbe]
    have hcount : c - j = c + 1 - (j + 1) := by omega
    have hx : s.buf.getD (epSkip s).byteOffset 0 / 2 ^ (7 - j) % 2 ^ (j + 1)
        = s.buf.getD (epSkip s).byteOffset 0 / 2 ^ (7 - s.bitOffset) % 2 * 2 ^ j
          + s.buf.getD (epSkip s).byteOffset 0 / 2 ^ (8 - 1 - j) % 2 ^ j := by
      rw [mod_two_pow_succ_high]
      have hdd : s.buf.getD (epSkip s).byteOffset 0 / 2 ^ (7 - j) / 2 ^ j
          = s.buf.getD (epSkip s).byteOffset 0 / 2 ^ (7 - s.bitOffset) := by
        rw [Nat.div_div_eq_div_mul, ← pow_add, show 7 - j + j = 7 - s.bitOffset by omega]
      rw [hdd, show 7 - j = 8 - 1 - j by omega]
    have hval : ((acc * 2 + s.buf.getD (epSkip s).byteOffset 0 / 2 ^ (7 - s.bitOffset) % 2)
          % 2 ^ 32 * 2 ^ j
          + s.buf.getD (epSkip s).byteOffset 0 / 2 ^ (8 - 1 - j) % 2 ^ j) % 2 ^ 32
        = (acc * 2 ^ (j + 1)
          + s.buf.getD (epSkip s).byteOffset 0 / 2 ^ (7 - j) % 2 ^ (j + 1)) % 2 ^ 32 := by
      rw [accMulAddMod, hx]
      ring_nf
    rw [hval, hcount]

theorem readBitsAux_zero (f acc : Nat) (s : RState) :
    readBitsAux f acc 0 s = .ok (acc, s) := by
  cases f <;> simp [readBitsAux]

theorem oneGo_zero (acc : Nat) (s : RState) :
    readBitsOneAtATimeGo acc 0 s = .ok (acc, s) := rfl

theorem readBitsAux_eq_oneGo (count : Nat) : ∀ acc (s : RState),
    (∀ b ∈ s.buf, b < 256) → ¬ lastThree003 s.buf → s.bitOffset < 8 →
    readBitsAux count acc count s = readBitsOneAtATimeGo acc count s := by
  induction count using Nat.strong_induction_on with
  | _ count ih =>
  intro acc s hbuf h003 ho
  match count with
  | 0 => rfl
  | c + 1 =>
    by_cases hb : s.buf.length ≤ s.byteOffset
    · have hL : readBitsAux (c + 1) acc (c + 1) s = .error "Bad byte offset" := by
        unfold readBitsAux
        rw [if_neg (by omega : ¬ (c + 1 = 0)), if_pos hb]
      have hr1 : readBits 1 s = .error "Bad byte offset" := by
        show readBitsAux 1 0 1 s = _
        unfold readBitsAux
        rw [if_neg (by omega : ¬ (1 = 0)), if_pos hb]
      rw [hL, readBitsOneAtATimeGo, hr1]
      rfl
    · have hlt : s.byteOffset < s.buf.length := by omega
      have hb2 : (epSkip s).byteOffset < s.buf.length := epSkip_byteOffset_lt s h003 hlt
      have hoe : (epSkip s).bitOffset = s.bitOffset := epSkip_bitOffset s
      have hbe : (epSkip s).buf = s.buf := epSkip_buf s
      by_cases hfast : (epSkip s).bitOffset = 0 ∧ 8 ≤ c + 1
      · have h0 : s.bitOffset = 0 := by omega
        have hB : (epSkip s).buf.getD (epSkip s).byteOffset 0 < 256 := by
          rw [hbe, List.getD_eq_getElem s.buf 0 hb2]
          exact hbuf _ (List.getElem_mem hb2)
        have hL : readBitsAux (c + 1) acc (c + 1) s
            = readBitsAux c
              ((acc * 256 + (epSkip s).buf.getD (epSkip s).byteOffset 0) % 2 ^ 32)
              (c + 1 - 8)
              { epSkip s with byteOffset := (epSkip s).byteOffset + 1 } := by
          conv_lhs => unfold readBitsAux
          rw [if_neg (by omega : ¬ (c + 1 = 0)), if_neg hb, if_pos hfast]
        have hfuel : readBitsAux c
              ((acc * 256 + (epSkip s).buf.getD (epSkip s).byteOffset 0) % 2 ^ 32)
              (c + 1 - 8)
              ({ epSkip s with byteOffset := (epSkip s).byteOffset + 1 } : RState)
            = readBitsAux (c + 1 - 8)
              ((acc * 256 + (epSkip s).buf.getD (epSkip s).byteOffset 0) % 2 ^ 32)
              (c + 1 - 8)
              { epSkip s with byteOffset := (epSkip s).byteOffset + 1 } :=
          readBitsAux_fuel c (c + 1 - 8) _ (c + 1 - 8) _ (by omega) (by omega)
        have hih := ih (c + 1 - 8) (by omega)
          ((acc * 256 + (epSkip s).buf.getD (epSkip s).byteOffset 0) % 2 ^ 32)
          ({ epSkip s with byteOffset := (epSkip s).byteOffset + 1 } : RState)
          (by dsimp only; rw [hbe]; exact hbuf)
          (by dsimp only; rw [hbe]; exact h003)
          (by dsimp only; omega)
        have hst : advanceBy 8 (epSkip s)
            = { epSkip s with byteOffset := (epSkip s).byteOffset + 1 } := by
          unfold advanceBy
          rw [if_pos (by rw [hfast.1] : (epSkip s).bitOffset + 8 = 8)]
          simp only [hfast.1]
        have hval : ((acc * 2 ^ (7 + 1)
              + (epSkip s).buf.getD (epSkip s).byteOffset 0 / 2 ^ (7 - 7) % 2 ^ (7 + 1))
              % 2 ^ 32)
            = (acc * 256 + (epSkip s).buf.getD (epSkip s).byteOffset 0) % 2 ^ 32 := by
          rw [show (7 : Nat) - 7 = 0 from rfl, pow_zero, Nat.div_one,
            show (2 : Nat) ^ (7 + 1) = 256 from by norm_num,
            Nat.mod_eq_of_lt hB]
        rw [hL, hfuel, hih, oneGo_aligned_chunk 7 acc (c + 1) s h0 hlt hb2 (by omega)
          (by omega), hval, hst]
      · by_cases h0 : s.bitOffset = 0
        · have hlt8 : c + 1 < 8 := by
            by_contra hge
            exact hfast ⟨by omega, by omega⟩
          have hk : (c + 1) ⊓ (8 - (epSkip s).bitOffset) = c + 1 := by
            rw [hoe, h0]
            omega
          have hL : readBitsAux (c + 1) acc (c + 1) s
              = .ok ((acc * 2 ^ (c + 1)
                  + (epSkip s).buf.getD (epSkip s).byteOffset 0
                    / 2 ^ (8 - (epSkip s).bitOffset - (c + 1)) % 2 ^ (c + 1)) % 2 ^ 32,
                { epSkip s with bitOffset := (epSkip s).bitOffset + (c + 1) }) := by
            unfold readBitsAux
            rw [if_neg (by omega : ¬ (c + 1 = 0)), if_neg hb, if_neg hfast, hk,
              if_neg (by omega : ¬ (c + 1 = 0)),
              if_neg (by rw [hoe, h0]; omega : ¬ ((epSkip s).bitOffset + (c + 1) = 8)),
              Nat.sub_self, readBitsAux_zero]
          have hR := oneGo_aligned_chunk c acc (c + 1) s h0 hlt hb2 (by omega) (by omega)
          have hst : advanceBy (c + 1) (epSkip s)
              = { epSkip s with bitOffset := (epSkip s).bitOffset + (c + 1) } := by
            unfold advanceBy
            rw [if_neg (by rw [hoe, h0]; omega : ¬ ((epSkip s).bitOffset + (c + 1) = 8))]
          have hexp : 8 - (epSkip s).bitOffset - (c + 1) = 7 - c := by
            rw [hoe, h0]
            omega
          rw [hL, hR, hst, Nat.sub_self, oneGo_zero, hexp]
        · have hmid : epSkip s = s := epSkip_midbyte s h0
          have hk1 : 1 ≤ (c + 1) ⊓ (8 - s.bitOffset) := by omega
          have hk8 : s.bitOffset + (c + 1) ⊓ (8 - s.bitOffset) ≤ 8 := by omega
          have hL : readBitsAux (c + 1) acc (c + 1) s
              = readBitsAux c
                ((acc * 2 ^ ((c + 1) ⊓ (8 - s.bitOffset))
                  + s.buf.getD s.byteOffset 0
                    / 2 ^ (8 - s.bitOffset - (c + 1) ⊓ (8 - s.bitOffset))
                    % 2 ^ ((c + 1) ⊓ (8 - s.bitOffset))) % 2 ^ 32)
                (c + 1 - (c + 1) ⊓ (8 - s.bitOffset))
                (advanceBy ((c + 1) ⊓ (8 - s.bitOffset)) s) := by
            conv_lhs => unfold readBitsAux
            unfold advanceBy
            rw [if_neg (by omega : ¬ (c + 1 = 0)), if_neg hb, hmid,
              if_neg (fun hc => h0 hc.1 : ¬ (s.bitOffset = 0 ∧ 8 ≤ c + 1)),
              if_neg (by omega : ¬ ((c + 1) ⊓ (8 - s.bitOffset) = 0))]
          have hoff : (advanceBy ((c + 1) ⊓ (8 - s.bitOffset)) s).bitOffset < 8 := by
            unfold advanceBy
            split <;> dsimp only <;> omega
          have hbufA : ∀ b ∈ (advanceBy ((c + 1) ⊓ (8 - s.bitOffset)) s).buf, b < 256 := by
            unfold advanceBy
            split <;> dsimp only <;> exact hbuf
          have h003A : ¬ lastThree003 (advanceBy ((c + 1) ⊓ (8 - s.bitOffset)) s).buf := by
            unfold advanceBy
            split <;> dsimp only <;> exact h003
          rw [hL, readBitsAux_fuel c (c + 1 - (c + 1) ⊓ (8 - s.bitOffset)) _ _ _
              (by omega) (by omega),
            ih (c + 1 - (c + 1) ⊓ (8 - s.bitOffset)) (by omega) _ _ hbufA h003A hoff,
            oneGo_chunk ((c + 1) ⊓ (8 - s.bitOffset)) acc (c + 1) s hk1 h0 hk8
              (by omega) hlt]

/-! ## C8 helper lemmas: writer -/

theorem jsMask_jsShr (v sft k : Nat) (h : sft + k ≤ 32) :
    jsMask (jsShr v sft) k = v % 2 ^ 32 / 2 ^ sft % 2 ^ k := by
  by_cases hk : k = 0
  · subst hk
    simp [jsMask, Int.emod_one, Nat.mod_one]
  · have hs : sft < 32 := by omega
    have hsm : sft % 32 = sft := Nat.mod_eq_of_lt hs
    unfold jsShr jsMask toInt32
    rw [hsm]
    have hpow : (0 : Int) ≤ 2 ^ sft := by positivity
    by_cases hcase : v % 2 ^ 32 < 2 ^ 31
    · rw [if_pos hcase, Int.fdiv_eq_ediv _ hpow]
      norm_cast
    · rw [if_neg hcase, Int.fdiv_eq_ediv _ hpow]
      have hdiv : ((v % 2 ^ 32 : Nat) : Int) - 2 ^ 32 = (v % 2 ^ 32 : Nat)
          + (-(2 ^ (32 - sft))) * 2 ^ sft := by
        rw [show ((2 : Int) ^ 32) = 2 ^ (32 - sft) * 2 ^ sft from by
          rw [← pow_add]; congr 1; omega]
        ring
      rw [hdiv, Int.add_mul_ediv_right _ _ (pow_ne_zero sft (by norm_num : (2 : Int) ≠ 0))]
      have hdvd : ((2 : Int) ^ k) ∣ 2 ^ (32 - sft) := pow_dvd_pow 2 (by omega)
      rw [show ((v % 2 ^ 32 : Nat) : Int) / 2 ^ sft + -(2 ^ (32 - sft))
          = ((v % 2 ^ 32 : Nat) : Int) / 2 ^ sft - 2 ^ (32 - sft) from by ring]
      rw [Int.sub_emod, Int.emod_eq_zero_of_dvd hdvd, sub_zero,
        Int.emod_emod_of_dvd _ (dvd_refl _)]
      norm_cast

theorem jsShr_chunk (v sft k : Nat) (h : sft + k ≤ 32) :
    jsMask (jsShr v sft) k = v / 2 ^ sft % 2 ^ k := by
  rw [jsMask_jsShr v sft k h]
  have h1 : v % 2 ^ 32 / 2 ^ sft = v / 2 ^ sft % 2 ^ (32 - sft) := by
    rw [show (2 : Nat) ^ 32 = 2 ^ sft * 2 ^ (32 - sft) from by rw [← pow_add]; congr 1; omega]
    exact Nat.mod_mul_right_div_self v (2 ^ sft) (2 ^ (32 - sft))
  rw [h1, Nat.mod_mod_of_dvd _ (pow_dvd_pow 2 (by omega))]

theorem jsMask_bit (b : Nat) (hb : b < 2) : jsMask (toInt32 b) 1 = b := by
  have h0 : jsShr b 0 = toInt32 b := by
    unfold jsShr
    norm_num [Int.fdiv_one]
  rw [← h0, jsShr_chunk b 0 1 (by omega), pow_zero, Nat.div_one, pow_one,
    Nat.mod_eq_of_lt hb]

theorem wSingle_eval (b : Nat) (w : WState) (hb : b < 2) (ho : w.bitOffset < 8) :
    writeBits b 1 w = wAdv b w := by
  show writeBitsAux 1 b 1 w = wAdv b w
  unfold writeBitsAux wAdv
  rw [if_neg (by omega : ¬ (1 = 0))]
  by_cases h0 : w.bitOffset = 0
  · rw [if_pos h0, if_neg (by omega : ¬ (8 ≤ 1)), if_neg (by omega : ¬ (w.bitOffset + 1 = 8)),
      jsMask_bit b hb, h0]
  · rw [if_neg h0]
    have hk : (8 - w.bitOffset) ⊓ 1 = 1 := by omega
    rw [hk, if_neg (by omega : ¬ (1 = 0)), Nat.sub_self,
      show jsMask (jsShr b 0) 1 = b from by
        rw [jsShr_chunk b 0 1 (by omega), pow_zero, Nat.div_one, pow_one,
          Nat.mod_eq_of_lt hb]]
    dsimp only
    by_cases h8 : w.bitOffset + 1 = 8
    · simp only [if_pos h8]
      rfl
    · simp only [if_neg h8]
      rfl

theorem oneW_zero (v : Nat) (w : WState) : writeBitsOneAtATime v 0 w = w := rfl

theorem oneW_succ (v c : Nat) (w : WState) :
    writeBitsOneAtATime v (c + 1) w
      = writeBitsOneAtATime v c (writeBits (v / 2 ^ c % 2) 1 w) := by
  unfold writeBitsOneAtATime
  rw [List.range_succ_eq_map, List.foldl_cons, List.foldl_map]
  have hf : (fun (w : WState) (j : Nat) =>
        writeBits (v / 2 ^ (c + 1 - 1 - Nat.succ j) % 2) 1 w)
      = (fun (w : WState) (j : Nat) => writeBits (v / 2 ^ (c - 1 - j) % 2) 1 w) := by
    funext w' j
    rw [show c + 1 - 1 - Nat.succ j = c - 1 - j from by omega]
  have ha : v / 2 ^ (c + 1 - 1 - 0) % 2 = v / 2 ^ c % 2 := by norm_num
  rw [hf, ha]

theorem pending_lor_add (P off y : Nat) (hmod : P % 2 ^ (8 - off) = 0)
    (hy : y < 2 ^ (8 - off)) : P ||| y = P + y := by
  obtain ⟨q, hq⟩ : 2 ^ (8 - off) ∣ P := Nat.dvd_of_mod_eq_zero hmod
  rw [hq]
  exact lor_disjoint q y (8 - off) hy

theorem pending_add_lt (P off y : Nat) (hmod : P % 2 ^ (8 - off) = 0)
    (hP : P < 256) (hy : y < 2 ^ (8 - off)) : P + y < 256 := by
  obtain ⟨q, hq⟩ : 2 ^ (8 - off) ∣ P := Nat.dvd_of_mod_eq_zero hmod
  by_cases ho : off < 8
  · have hs : (2 : Nat) ^ (8 - off) * 2 ^ off = 256 := by
      rw [← pow_add, show 8 - off + off = 8 by omega]
      norm_num
    have hq2 : q < 2 ^ off := Nat.lt_of_mul_lt_mul_left
      (show 2 ^ (8 - off) * q < 2 ^ (8 - off) * 2 ^ off from by rw [← hq, hs]; exact hP)
    have hle : P ≤ 256 - 2 ^ (8 - off) := by
      rw [hq]
      calc 2 ^ (8 - off) * q ≤ 2 ^ (8 - off) * (2 ^ off - 1) :=
            Nat.mul_le_mul_left _ (by omega)
        _ = 256 - 2 ^ (8 - off) := by rw [Nat.mul_sub_one, hs]
    have hA : 2 ^ (8 - off) ≤ 256 := by
      calc (2 : Nat) ^ (8 - off) ≤ 2 ^ 8 := Nat.pow_le_pow_right (by omega) (by omega)
        _ = 256 := by norm_num
    omega
  · have h8 : 8 - off = 0 := by omega
    rw [h8] at hy
    omega

theorem pending_mod_small (P off k : Nat) (hk : k ≤ 8 - off)
    (hmod : P % 2 ^ (8 - off) = 0) : P % 2 ^ k = 0 :=
  (Nat.mod_eq_zero_of_dvd ((pow_dvd_pow 2 hk).trans (Nat.dvd_of_mod_eq_zero hmod)))

theorem oneW_chunk : ∀ j v n cn (w : WState), 1 ≤ j → w.bitOffset + j ≤ 8 → j ≤ n →
    w.pendingByte % 2 ^ (8 - w.bitOffset) = 0 → w.pendingByte < 256 →
    cn = v / 2 ^ (n - j) % 2 ^ j →
    writeBitsOneAtATime v n w
      = writeBitsOneAtATime v (n - j)
          (if w.bitOffset + j = 8 then
            flush { w with pendingByte := w.pendingByte + cn * 2 ^ (8 - w.bitOffset - j) }
          else { w with pendingByte := w.pendingByte + cn * 2 ^ (8 - w.bitOffset - j), bitOffset := w.bitOffset + j }) := by
  intro j
  induction j with
  | zero => intro _ _ _ _ h1; omega
  | succ jj ih =>
    intro v n cn w _ h8 hjn hmod hlt hcn
    obtain ⟨m, rfl⟩ : ∃ m, n = m + 1 := ⟨n - 1, by omega⟩
    have ho : w.bitOffset < 8 := by omega
    have hb : v / 2 ^ m % 2 < 2 := Nat.mod_lt _ (by omega)
    have hylt : v / 2 ^ m % 2 * 2 ^ (8 - w.bitOffset - 1) < 2 ^ (8 - w.bitOffset) := by
      have h1 : 2 ^ (8 - w.bitOffset - 1) < 2 ^ (8 - w.bitOffset) :=
        Nat.pow_lt_pow_right (by omega) (by omega)
      have h2 : v / 2 ^ m % 2 * 2 ^ (8 - w.bitOffset - 1) ≤ 1 * 2 ^ (8 - w.bitOffset - 1) :=
        Nat.mul_le_mul_right _ (by omega)
      omega
    have hlor : w.pendingByte ||| v / 2 ^ m % 2 * 2 ^ (8 - w.bitOffset - 1)
        = w.pendingByte + v / 2 ^ m % 2 * 2 ^ (8 - w.bitOffset - 1) :=
      pending_lor_add _ _ _ hmod hylt
    rw [oneW_succ v m w, wSingle_eval (v / 2 ^ m % 2) w hb ho]
    by_cases hjj : jj = 0
    · subst hjj
      unfold wAdv
      rw [hcn, hlor]
      have hbit : v / 2 ^ (m + 1 - (0 + 1)) % 2 ^ (0 + 1) = v / 2 ^ m % 2 := by norm_num
      rw [hbit]
      rfl
    · have hnf : w.bitOffset + 1 ≠ 8 := by omega
      unfold wAdv
      rw [if_neg hnf, hlor]
      rw [ih v m (v / 2 ^ (m - jj) % 2 ^ jj)
        { w with pendingByte := w.pendingByte + v / 2 ^ m % 2 * 2 ^ (8 - w.bitOffset - 1), bitOffset := w.bitOffset + 1 }
        (by omega) (by dsimp only; omega) (by omega)
        (by
          dsimp only
          rw [show 8 - (w.bitOffset + 1) = 8 - w.bitOffset - 1 from by omega,
            show w.pendingByte + v / 2 ^ m % 2 * 2 ^ (8 - w.bitOffset - 1)
              = w.pendingByte + (v / 2 ^ m % 2) * 2 ^ (8 - w.bitOffset - 1) from rfl,
            Nat.add_mul_mod_self_right]
          exact pending_mod_small _ _ _ (by omega) hmod)
        (by
          dsimp only
          exact pending_add_lt _ w.bitOffset _ hmod hlt hylt)
        rfl]
      dsimp only
      have hcond : w.bitOffset + 1 + jj = 8 ↔ w.bitOffset + (jj + 1) = 8 := by omega
      have hcnt : m - jj = m + 1 - (jj + 1) := by omega
      have hsplit : v / 2 ^ (m + 1 - (jj + 1)) % 2 ^ (jj + 1)
          = v / 2 ^ m % 2 * 2 ^ jj + v / 2 ^ (m - jj) % 2 ^ jj := by
        rw [show m + 1 - (jj + 1) = m - jj from by omega, mod_two_pow_succ_high]
        congr 2
        rw [Nat.div_div_eq_div_mul, ← pow_add, show m - jj + jj = m from by omega]
      have hpend : w.pendingByte + v / 2 ^ m % 2 * 2 ^ (8 - w.bitOffset - 1)
            + v / 2 ^ (m - jj) % 2 ^ jj * 2 ^ (8 - (w.bitOffset + 1) - jj)
          = w.pendingByte + cn * 2 ^ (8 - w.bitOffset - (jj + 1)) := by
        rw [hcn, hsplit, Nat.add_mul, Nat.add_assoc]
        congr 2
        · rw [Nat.mul_assoc, ← pow_add,
            show jj + (8 - w.bitOffset - (jj + 1)) = 8 - w.bitOffset - 1 from by omega]
        · rw [show 8 - (w.bitOffset + 1) - jj = 8 - w.bitOffset - (jj + 1) from by omega]
      by_cases hc : w.bitOffset + (jj + 1) = 8
      · rw [if_pos (by omega : w.bitOffset + 1 + jj = 8), if_pos hc]
        unfold flush
        dsimp only
        rw [hpend, hcnt]
      · rw [if_neg (by omega : ¬ (w.bitOffset + 1 + jj = 8)), if_neg hc]
        rw [hpend, show w.bitOffset + 1 + jj = w.bitOffset + (jj + 1) from by omega, hcnt]

theorem writeBitsAux_fuel (f1 : Nat) : ∀ f2 bits count w, count ≤ f1 → count ≤ f2 →
    writeBitsAux f1 bits count w = writeBitsAux f2 bits count w := by
  induction f1 with
  | zero =>
    intro f2 bits count w h1 h2
    have hc : count = 0 := by omega
    subst hc
    cases f2 <;> simp [writeBitsAux]
  | succ f ihf =>
    intro f2 bits count w h1 h2
    cases count with
    | zero => cases f2 <;> simp [writeBitsAux]
    | succ c =>
      cases f2 with
      | zero => omega
      | succ g =>
        unfold writeBitsAux
        simp only [if_neg (by omega : ¬ (c + 1 = 0))]
        by_cases h0 : w.bitOffset = 0
        · simp only [if_pos h0]
          by_cases hbig : 8 ≤ c + 1
          · simp only [if_pos hbig]
            exact ihf _ _ _ _ (by omega) (by omega)
          · simp only [if_neg hbig]
        · simp only [if_neg h0]
          by_cases hk : (8 - w.bitOffset) ⊓ (c + 1) = 0
          · simp only [if_pos hk]
          · simp only [if_neg hk]
            exact ihf _ _ _ _ (by omega) (by omega)

theorem writeBitsAux_eq_oneW (n : Nat) : ∀ v (w : WState), n ≤ 32 → w.bitOffset < 8 →
    w.pendingByte % 2 ^ (8 - w.bitOffset) = 0 → w.pendingByte < 256 →
    writeBitsAux n v n w = writeBitsOneAtATime v n w := by
  induction n using Nat.strong_induction_on with
  | _ n ih =>
  intro v w h32 ho hmod hP
  match n with
  | 0 => rfl
  | c + 1 =>
    by_cases h0 : w.bitOffset = 0
    · have hP0 : w.pendingByte = 0 := by
        rw [h0] at hmod
        norm_num at hmod
        omega
      by_cases hbig : 8 ≤ c + 1
      · have hchunk : jsMask (jsShr v (c + 1 - 8)) 8 = v / 2 ^ (c + 1 - 8) % 2 ^ 8 :=
          jsShr_chunk v (c + 1 - 8) 8 (by omega)
        have hL : writeBitsAux (c + 1) v (c + 1) w
            = writeBitsAux c v (c + 1 - 8)
              (flush { w with pendingByte := v / 2 ^ (c + 1 - 8) % 2 ^ 8 }) := by
          conv_lhs => unfold writeBitsAux
          rw [if_neg (by omega : ¬ (c + 1 = 0)), if_pos h0, if_pos hbig, hchunk]
        rw [hL, writeBitsAux_fuel c (c + 1 - 8) v (c + 1 - 8) _ (by omega) (by omega),
          ih (c + 1 - 8) (by omega) v _ (by omega) (by unfold flush; dsimp only; omega)
            (by unfold flush; dsimp only; simp) (by unfold flush; dsimp only; omega),
          oneW_chunk 8 v (c + 1) (v / 2 ^ (c + 1 - 8) % 2 ^ 8) w (by omega) (by omega)
            (by omega) hmod hP rfl,
          if_pos (by omega : w.bitOffset + 8 = 8), hP0,
          show 8 - w.bitOffset - 8 = 0 from by omega, pow_zero, Nat.mul_one, Nat.zero_add]
      · have hlt8 : c + 1 < 8 := by omega
        have hj0 : jsShr v 0 = toInt32 v := by
          unfold jsShr
          norm_num [Int.fdiv_one]
        have hchunk : jsMask (toInt32 v) (c + 1) = v % 2 ^ (c + 1) := by
          rw [← hj0, jsShr_chunk v 0 (c + 1) (by omega), pow_zero, Nat.div_one]
        have hL : writeBitsAux (c + 1) v (c + 1) w
            = { w with pendingByte := w.pendingByte ||| v % 2 ^ (c + 1) * 2 ^ (8 - (c + 1)), bitOffset := c + 1 } := by
          conv_lhs => unfold writeBitsAux
          rw [if_neg (by omega : ¬ (c + 1 = 0)), if_pos h0, if_neg hbig, hchunk]
        have hylt : v % 2 ^ (c + 1) * 2 ^ (8 - (c + 1)) < 2 ^ (8 - w.bitOffset) := by
          have h1 : v % 2 ^ (c + 1) < 2 ^ (c + 1) := Nat.mod_lt _ (Nat.two_pow_pos _)
          have h2 : v % 2 ^ (c + 1) * 2 ^ (8 - (c + 1))
              ≤ (2 ^ (c + 1) - 1) * 2 ^ (8 - (c + 1)) := Nat.mul_le_mul_right _ (by omega)
          have h3 : (2 : Nat) ^ (c + 1) * 2 ^ (8 - (c + 1)) = 2 ^ 8 := by
            rw [← pow_add, show c + 1 + (8 - (c + 1)) = 8 from by omega]
          have h4 : (2 : Nat) ^ (8 - w.bitOffset) = 2 ^ 8 := by rw [h0]
          have h5 : 0 < (2 : Nat) ^ (8 - (c + 1)) := Nat.two_pow_pos _
          rw [h4, ← h3]
          calc v % 2 ^ (c + 1) * 2 ^ (8 - (c + 1))
              ≤ (2 ^ (c + 1) - 1) * 2 ^ (8 - (c + 1)) := h2
            _ < 2 ^ (c + 1) * 2 ^ (8 - (c + 1)) := by
                exact (Nat.mul_lt_mul_right h5).mpr (by omega)
        rw [hL, oneW_chunk (c + 1) v (c + 1) (v % 2 ^ (c + 1)) w (by omega) (by omega)
            (by omega) hmod hP (by rw [Nat.sub_self, pow_zero, Nat.div_one]),
          if_neg (by omega : ¬ (w.bitOffset + (c + 1) = 8)), Nat.sub_self, oneW_zero,
          pending_lor_add _ w.bitOffset _ hmod (by rw [h0] at hylt ⊢; exact hylt), h0,
          show (8 : Nat) - 0 - (c + 1) = 8 - (c + 1) from by omega,
          show 0 + (c + 1) = c + 1 from by omega]
    · have hk1 : 1 ≤ (8 - w.bitOffset) ⊓ (c + 1) := by omega
      have hchunk : jsMask (jsShr v (c + 1 - (8 - w.bitOffset) ⊓ (c + 1)))
            ((8 - w.bitOffset) ⊓ (c + 1))
          = v / 2 ^ (c + 1 - (8 - w.bitOffset) ⊓ (c + 1))
            % 2 ^ ((8 - w.bitOffset) ⊓ (c + 1)) :=
        jsShr_chunk _ _ _ (by omega)
      conv_lhs => unfold writeBitsAux
      rw [if_neg (by omega : ¬ (c + 1 = 0)), if_neg h0,
        if_neg (by omega : ¬ ((8 - w.bitOffset) ⊓ (c + 1) = 0)), hchunk]
      dsimp only
      have hylt : v / 2 ^ (c + 1 - (8 - w.bitOffset) ⊓ (c + 1))
            % 2 ^ ((8 - w.bitOffset) ⊓ (c + 1))
            * 2 ^ (8 - w.bitOffset - (8 - w.bitOffset) ⊓ (c + 1)) < 2 ^ (8 - w.bitOffset) := by
        have h1 : v / 2 ^ (c + 1 - (8 - w.bitOffset) ⊓ (c + 1))
              % 2 ^ ((8 - w.bitOffset) ⊓ (c + 1)) < 2 ^ ((8 - w.bitOffset) ⊓ (c + 1)) :=
          Nat.mod_lt _ (Nat.two_pow_pos _)
        have h5 : 0 < (2 : Nat) ^ (8 - w.bitOffset - (8 - w.bitOffset) ⊓ (c + 1)) :=
          Nat.two_pow_pos _
        calc v / 2 ^ (c + 1 - (8 - w.bitOffset) ⊓ (c + 1))
              % 2 ^ ((8 - w.bitOffset) ⊓ (c + 1))
              * 2 ^ (8 - w.bitOffset - (8 - w.bitOffset) ⊓ (c + 1))
            < 2 ^ ((8 - w.bitOffset) ⊓ (c + 1))
              * 2 ^ (8 - w.bitOffset - (8 - w.bitOffset) ⊓ (c + 1)) :=
              (Nat.mul_lt_mul_right h5).mpr h1
          _ = 2 ^ (8 - w.bitOffset) := by
              rw [← pow_add]
              congr 1
              omega
      rw [pending_lor_add w.pendingByte w.bitOffset _ hmod hylt]
      have hCNlt : v / 2 ^ (c + 1 - (8 - w.bitOffset) ⊓ (c + 1))
          % 2 ^ ((8 - w.bitOffset) ⊓ (c + 1)) < 2 ^ ((8 - w.bitOffset) ⊓ (c + 1)) :=
        Nat.mod_lt _ (Nat.two_pow_pos _)
      rw [oneW_chunk ((8 - w.bitOffset) ⊓ (c + 1)) v (c + 1)
        (v / 2 ^ (c + 1 - (8 - w.bitOffset) ⊓ (c + 1)) % 2 ^ ((8 - w.bitOffset) ⊓ (c + 1)))
        w (by omega) (by omega) (by omega) hmod hP rfl]
      by_cases hroll : w.bitOffset + (8 - w.bitOffset) ⊓ (c + 1) = 8
      · rw [if_pos hroll, if_pos hroll,
          writeBitsAux_fuel c (c + 1 - (8 - w.bitOffset) ⊓ (c + 1)) v _ _ (by omega)
            (by omega),
          ih (c + 1 - (8 - w.bitOffset) ⊓ (c + 1)) (by omega) v _ (by omega)
            (by unfold flush; dsimp only; omega) (by unfold flush; dsimp only; simp)
            (by unfold flush; dsimp only; omega)]
        rfl
      · rw [if_neg hroll, if_neg hroll,
          writeBitsAux_fuel c (c + 1 - (8 - w.bitOffset) ⊓ (c + 1)) v _ _ (by omega)
            (by omega),
          ih (c + 1 - (8 - w.bitOffset) ⊓ (c + 1)) (by omega) v _ (by omega)
            (by dsimp only; omega)
            (by
              dsimp only
              rw [show 8 - (w.bitOffset + (8 - w.bitOffset) ⊓ (c + 1))
                  = 8 - w.bitOffset - (8 - w.bitOffset) ⊓ (c + 1) from by omega,
                Nat.add_mul_mod_self_right]
              exact pending_mod_small _ w.bitOffset _ (by omega) hmod)
            (by
              dsimp only
              exact pending_add_lt _ w.bitOffset _ hmod hP hylt)]

/-- C8 (amended): byte-at-a-time fast paths agree with bit-by-bit processing
on well-formed inputs.  Reading: for a buffer of genuine bytes (each < 256)
that does not end in a truncated emulation-prevention sequence `00 00 03`,
`readBits` called once equals `readBits(1)` repeated with the same 32-bit
accumulation, for every count and cursor.  Writing: for counts up to 32 from
a consistent cursor (pending high bits only), `writeBits` equals bit-by-bit
writes of the same bits. -/
theorem c8_fast_paths_equiv_bitwise :
    (∀ (n : Nat) (s : RState), (∀ b ∈ s.buf, b < 256) → ¬ lastThree003 s.buf →
      s.bitOffset < 8 → readBits n s = readBitsOneAtATime n s)
    ∧ (∀ (v n : Nat) (w : WState), n ≤ 32 → w.bitOffset < 8 →
      w.pendingByte % 2 ^ (8 - w.bitOffset) = 0 → w.pendingByte < 256 →
      writeBits v n w = writeBitsOneAtATime v n w) :=
  ⟨fun n s h1 h2 h3 => readBitsAux_eq_oneGo n 0 s h1 h2 h3,
   fun v n w h1 h2 h3 h4 => writeBitsAux_eq_oneW n v w h1 h2 h3 h4⟩

set_option maxRecDepth 4000 in
/-- C8 counterexample: writing 40 bits in one call diverges from writing the
same 40 bits one at a time, because the fast path computes the byte with a
JS shift whose count 32 wraps to 0. -/
theorem c8_counterexample :
    writeBits 1 40 { arr := [], pendingByte := 0, bitOffset := 0 }
      ≠ writeBitsOneAtATime 1 40 { arr := [], pendingByte := 0, bitOffset := 0 } := by
  decide

/-- C8 witness: the equivalence at a concrete 16-bit read and write. -/
theorem c8_fast_paths_equiv_bitwise_witness :
    readBits 16 { buf := [171, 205, 239], byteOffset := 0, bitOffset := 0 }
      = readBitsOneAtATime 16 { buf := [171, 205, 239], byteOffset := 0, bitOffset := 0 }
    ∧ writeBits 43981 16 { arr := [], pendingByte := 0, bitOffset := 0 }
      = writeBitsOneAtATime 43981 16 { arr := [], pendingByte := 0, bitOffset := 0 } :=
  ⟨c8_fast_paths_equiv_bitwise.1 16 _ (by decide) (by unfold lastThree003; decide) (by decide),
   c8_fast_paths_equiv_bitwise.2 43981 16 _ (by decide) (by decide) (by decide) (by decide)⟩

/-! ## C1 helper lemmas -/

theorem writeUE_ok (v : Nat) (w : WState) :
    writeUnsignedExpGolomb (v : Int) w = .ok (ueState v w) := by
  unfold writeUnsignedExpGolomb ueState
  rw [if_neg (not_lt.mpr (Int.natCast_nonneg v)), Int.toNat_natCast]

theorem spsVuiPart_noVui (maxref : Nat) (r r1 : RState) (w : WState)
    (hread : readBits 1 r = .ok (0, r1)) :
    spsVuiPart maxref r w
      = .ok (⟨maxref, 0, none, none, none, none, none, none, none, none⟩, r1,
        emitNoVuiTail maxref (writeBits 1 1 w)) := by
  simp only [spsVuiPart, addBitstreamRestriction, emitNoVuiTail, emitForcedRestriction,
    Bind.bind, M.bind, readBit, writeBit, writeUE, Pure.pure, M.pure, hread, writeUE_ok,
    if_true, if_false]

theorem spsVuiPart_emptyRestriction (maxref : Nat) (r r1 r2 r3 : RState) (w w2 : WState)
    (hread1 : readBits 1 r = .ok (1, r1))
    (hmid : vuiCopyMiddle r1 (writeBits 1 1 w) = .ok ((), r2, w2))
    (hread2 : readBits 1 r2 = .ok (0, r3)) :
    spsVuiPart maxref r w
      = .ok (⟨maxref, 1, some 0, none, none, none, none, none, none, none⟩, r3,
        emitForcedRestriction maxref (writeBits 1 1 w2)) := by
  simp only [spsVuiPart, addBitstreamRestriction, emitForcedRestriction,
    Bind.bind, M.bind, readBit, writeBit, writeUE, Pure.pure, M.pure, hread1, hmid, hread2,
    writeUE_ok, if_true, if_false, Nat.one_ne_zero]

theorem M.bind_ok {α β : Type} (m : M α) (f : α → M β) (r : RState) (w : WState)
    (a : α) (r' : RState) (w' : WState) (h : m r w = .ok (a, r', w')) :
    Bind.bind m f r w = f a r' w' := by
  show M.bind m f r w = f a r' w'
  unfold M.bind
  rw [h]

theorem readBit_ok (n : Nat) (r r' : RState) (w : WState) (v : Nat)
    (h : readBits n r = .ok (v, r')) : readBit n r w = .ok (v, r', w) := by
  unfold readBit
  rw [h]

theorem writeBit_ok (v n : Nat) (r : RState) (w : WState) :
    writeBit v n r w = .ok ((), r, writeBits v n w) := rfl

theorem writeUE_okM (v : Nat) (r : RState) (w : WState) :
    writeUE v r w = .ok ((), r, ueState v w) := by
  unfold writeUE
  rw [writeUE_ok]

theorem readUE_ok (r r' : RState) (w : WState) (v : Nat)
    (h : readUnsignedExpGolomb r = .ok (v, r')) : readUE r w = .ok (v, r', w) := by
  unfold readUE
  rw [h]

theorem copyBit_ok (n : Nat) (r r' : RState) (w : WState) (v : Nat)
    (h : readBits n r = .ok (v, r')) :
    copyBit n r w = .ok (v, r', writeBits v n w) := by
  unfold copyBit
  rw [M.bind_ok _ _ _ _ _ _ _ (readBit_ok n r r' w v h),
    M.bind_ok _ _ _ _ _ _ _ (writeBit_ok v n r' w)]
  rfl

theorem copyUE_ok (r r' : RState) (w : WState) (v : Nat)
    (h : readUnsignedExpGolomb r = .ok (v, r')) :
    copyUE r w = .ok (v, r', ueState v w) := by
  unfold copyUE
  rw [M.bind_ok _ _ _ _ _ _ _ (readUE_ok r r' w v h),
    M.bind_ok _ _ _ _ _ _ _ (writeUE_okM v r' w)]
  rfl

theorem spsVuiPart_copiesRestriction (maxref : Nat) (r r1 r2 r3 r4 r5 r6 r7 r8 r9 r10 : RState)
    (w w2 : WState) (v1 v2 v3 v4 v5 vr vd : Nat)
    (hread1 : readBits 1 r = .ok (1, r1))
    (hmid : vuiCopyMiddle r1 (writeBits 1 1 w) = .ok ((), r2, w2))
    (hread2 : readBits 1 r2 = .ok (1, r3))
    (hv1 : readBits 1 r3 = .ok (v1, r4))
    (hv2 : readUnsignedExpGolomb r4 = .ok (v2, r5))
    (hv3 : readUnsignedExpGolomb r5 = .ok (v3, r6))
    (hv4 : readUnsignedExpGolomb r6 = .ok (v4, r7))
    (hv5 : readUnsignedExpGolomb r7 = .ok (v5, r8))
    (hvr : readUnsignedExpGolomb r8 = .ok (vr, r9))
    (hvd : readUnsignedExpGolomb r9 = .ok (vd, r10)) :
    spsVuiPart maxref r w
      = .ok (⟨maxref, 1, some 1, some v1, some v2, some v3, some v4, some v5, some vr,
          some vd⟩, r10,
        emitCopiedRestriction v1 v2 v3 v4 v5 maxref (writeBits 1 1 w2)) := by
  unfold spsVuiPart emitCopiedRestriction
  rw [M.bind_ok _ _ _ _ _ _ _ (readBit_ok 1 r r1 w 1 hread1),
    M.bind_ok _ _ _ _ _ _ _ (writeBit_ok 1 1 r1 w),
    if_neg (by decide : ¬ ((1 : Nat) = 0)),
    M.bind_ok _ _ _ _ _ _ _ hmid,
    M.bind_ok _ _ _ _ _ _ _ (readBit_ok 1 r2 r3 w2 1 hread2),
    M.bind_ok _ _ _ _ _ _ _ (writeBit_ok 1 1 r3 w2),
    if_neg (by decide : ¬ ((1 : Nat) = 0)),
    M.bind_ok _ _ _ _ _ _ _ (copyBit_ok 1 r3 r4 (writeBits 1 1 w2) v1 hv1),
    M.bind_ok _ _ _ _ _ _ _ (copyUE_ok r4 r5 (writeBits v1 1 (writeBits 1 1 w2)) v2 hv2),
    M.bind_ok _ _ _ _ _ _ _
      (copyUE_ok r5 r6 (ueState v2 (writeBits v1 1 (writeBits 1 1 w2))) v3 hv3),
    M.bind_ok _ _ _ _ _ _ _
      (copyUE_ok r6 r7 (ueState v3 (ueState v2 (writeBits v1 1 (writeBits 1 1 w2)))) v4 hv4),
    M.bind_ok _ _ _ _ _ _ _
      (copyUE_ok r7 r8 (ueState v4 (ueState v3 (ueState v2 (writeBits v1 1 (writeBits 1 1 w2))))) v5 hv5),
    M.bind_ok _ _ _ _ _ _ _
      (readUE_ok r8 r9 (ueState v5 (ueState v4 (ueState v3 (ueState v2 (writeBits v1 1 (writeBits 1 1 w2)))))) vr hvr),
    M.bind_ok _ _ _ _ _ _ _
      (writeUE_okM 0 r9 (ueState v5 (ueState v4 (ueState v3 (ueState v2 (writeBits v1 1 (writeBits 1 1 w2))))))),
    M.bind_ok _ _ _ _ _ _ _
      (readUE_ok r9 r10 (ueState 0 (ueState v5 (ueState v4 (ueState v3 (ueState v2 (writeBits v1 1 (writeBits 1 1 w2))))))) vd hvd),
    M.bind_ok _ _ _ _ _ _ _
      (writeUE_okM maxref r10 (ueState 0 (ueState v5 (ueState v4 (ueState v3 (ueState v2 (writeBits v1 1 (writeBits 1 1 w2))))))))]
  rfl

/-- C1 (amended): `rewriteSPSVUI` always forces `vui_parameters_present_flag`
to 1 and always writes `max_num_reorder_frames = 0` and
`max_dec_frame_buffering = max_num_ref_frames`; but the five leading
bitstream-restriction subfields are forced to the constants
`motion_vectors=1, max_bytes=2, max_bits=1, mv_h=16, mv_v=16` only when the
input SPS has no VUI or no bitstream-restriction block — when the block is
present those five subfields are copied from the input.  Stated on the VUI
part of the rewriter, one conjunct per source path, each exhibiting the
exact writer effect. -/
theorem c1_vui_restriction_behaviour :
    (∀ maxref r r1 w, readBits 1 r = .ok (0, r1) →
      spsVuiPart maxref r w
        = .ok (⟨maxref, 0, none, none, none, none, none, none, none, none⟩, r1,
          emitNoVuiTail maxref (writeBits 1 1 w)))
    ∧ (∀ maxref r r1 r2 r3 w w2, readBits 1 r = .ok (1, r1) →
      vuiCopyMiddle r1 (writeBits 1 1 w) = .ok ((), r2, w2) →
      readBits 1 r2 = .ok (0, r3) →
      spsVuiPart maxref r w
        = .ok (⟨maxref, 1, some 0, none, none, none, none, none, none, none⟩, r3,
          emitForcedRestriction maxref (writeBits 1 1 w2)))
    ∧ (∀ maxref r r1 r2 r3 r4 r5 r6 r7 r8 r9 r10 w w2 v1 v2 v3 v4 v5 vr vd,
      readBits 1 r = .ok (1, r1) →
      vuiCopyMiddle r1 (writeBits 1 1 w) = .ok ((), r2, w2) →
      readBits 1 r2 = .ok (1, r3) →
      readBits 1 r3 = .ok (v1, r4) →
      readUnsignedExpGolomb r4 = .ok (v2, r5) →
      readUnsignedExpGolomb r5 = .ok (v3, r6) →
      readUnsignedExpGolomb r6 = .ok (v4, r7) →
      readUnsignedExpGolomb r7 = .ok (v5, r8) →
      readUnsignedExpGolomb r8 = .ok (vr, r9) →
      readUnsignedExpGolomb r9 = .ok (vd, r10) →
      spsVuiPart maxref r w
        = .ok (⟨maxref, 1, some 1, some v1, some v2, some v3, some v4, some v5, some vr,
            some vd⟩, r10,
          emitCopiedRestriction v1 v2 v3 v4 v5 maxref (writeBits 1 1 w2))) :=
  ⟨fun maxref r r1 w h => spsVuiPart_noVui maxref r r1 w h,
   fun maxref r r1 r2 r3 w w2 h1 h2 h3 =>
     spsVuiPart_emptyRestriction maxref r r1 r2 r3 w w2 h1 h2 h3,
   fun maxref r r1 r2 r3 r4 r5 r6 r7 r8 r9 r10 w w2 v1 v2 v3 v4 v5 vr vd
       h1 h2 h3 h4 h5 h6 h7 h8 h9 h10 =>
     spsVuiPart_copiesRestriction maxref r r1 r2 r3 r4 r5 r6 r7 r8 r9 r10 w w2
       v1 v2 v3 v4 v5 vr vd h1 h2 h3 h4 h5 h6 h7 h8 h9 h10⟩

set_option maxRecDepth 8000 in
/-- C1 counterexample: rewriting an SPS whose bitstream-restriction block
carries `max_bytes_per_pic_denom = 5` and re-parsing the output with the
same function reads back 5, not the claimed forced value 2: the subfields
are copied, not forced. -/
theorem c1_counterexample :
    ((rewriteSPSVUI spsWithRestriction).toOption.bind fun pr =>
      (rewriteSPSVUI pr.1).toOption.map fun pr2 => pr2.2.max_bytes_per_pic_denom)
      = some (some 5) ∧ (5 : Nat) ≠ 2 := by
  constructor
  · decide
  · decide

/-- C1 witness: each of the three paths at a concrete SPS bitstream. -/
theorem c1_vui_restriction_behaviour_witness :
    (spsVuiPart 3 { buf := [0], byteOffset := 0, bitOffset := 0 }
        { arr := [], pendingByte := 0, bitOffset := 0 }
      = .ok (⟨3, 0, none, none, none, none, none, none, none, none⟩,
        { buf := [0], byteOffset := 0, bitOffset := 1 },
        emitNoVuiTail 3 (writeBits 1 1 { arr := [], pendingByte := 0, bitOffset := 0 })))
    ∧ (spsVuiPart 3 { buf := [128, 0], byteOffset := 0, bitOffset := 0 }
        { arr := [], pendingByte := 0, bitOffset := 0 }
      = .ok (⟨3, 1, some 0, none, none, none, none, none, none, none⟩,
        { buf := [128, 0], byteOffset := 1, bitOffset := 2 },
        emitForcedRestriction 3
          (writeBits 1 1 { arr := [128], pendingByte := 0, bitOffset := 1 })))
    ∧ (spsVuiPart 3 { buf := [128, 127, 128], byteOffset := 0, bitOffset := 0 }
        { arr := [], pendingByte := 0, bitOffset := 0 }
      = .ok (⟨3, 1, some 1, some 1, some 0, some 0, some 0, some 0, some 0, some 0⟩,
        { buf := [128, 127, 128], byteOffset := 2, bitOffset := 1 },
        emitCopiedRestriction 1 0 0 0 0 3
          (writeBits 1 1 { arr := [128], pendingByte := 0, bitOffset := 1 }))) :=
  ⟨c1_vui_restriction_behaviour.1 3
      { buf := [0], byteOffset := 0, bitOffset := 0 }
      { buf := [0], byteOffset := 0, bitOffset := 1 }
      { arr := [], pendingByte := 0, bitOffset := 0 } (by decide),
   c1_vui_restriction_behaviour.2.1 3
      { buf := [128, 0], byteOffset := 0, bitOffset := 0 }
      { buf := [128, 0], byteOffset := 0, bitOffset := 1 }
      { buf := [128, 0], byteOffset := 1, bitOffset := 1 }
      { buf := [128, 0], byteOffset := 1, bitOffset := 2 }
      { arr := [], pendingByte := 0, bitOffset := 0 }
      { arr := [128], pendingByte := 0, bitOffset := 1 }
      (by decide) (by decide) (by decide),
   c1_vui_restriction_behaviour.2.2 3
      { buf := [128, 127, 128], byteOffset := 0, bitOffset := 0 }
      { buf := [128, 127, 128], byteOffset := 0, bitOffset := 1 }
      { buf := [128, 127, 128], byteOffset := 1, bitOffset := 1 }
      { buf := [128, 127, 128], byteOffset := 1, bitOffset := 2 }
      { buf := [128, 127, 128], byteOffset := 1, bitOffset := 3 }
      { buf := [128, 127, 128], byteOffset := 1, bitOffset := 4 }
      { buf := [128, 127, 128], byteOffset := 1, bitOffset := 5 }
      { buf := [128, 127, 128], byteOffset := 1, bitOffset := 6 }
      { buf := [128, 127, 128], byteOffset := 1, bitOffset := 7 }
      { buf := [128, 127, 128], byteOffset := 2, bitOffset := 0 }
      { buf := [128, 127, 128], byteOffset := 2, bitOffset := 1 }
      { arr := [], pendingByte := 0, bitOffset := 0 }
      { arr := [128], pendingByte := 0, bitOffset := 1 }
      1 0 0 0 0 0 0
      (by decide) (by decide) (by decide) (by decide) (by decide) (by decide) (by decide)
      (by decide) (by decide) (by decide)⟩
